import Mathlib

/-!
# Vengo: command dispatcher and environment registry

A shallow embedding of `main.go`.  Every Go function of the file is a Lean
function of the same name that passes the process state explicitly.

* The filesystem is a finite table from absolute paths (lists of path
  components) to entries (a directory, or a regular file with its content).
  The directory `/` is the empty path and always exists.  Every entry is a
  directory or a regular file; symbolic links are not entries of the table.
* What the table does not explain (access rights, name length limits,
  symbolic link loops, I/O errors) is the record `Faults`: for each system
  call it says whether the call fails, with which error, and what a failed
  write or removal leaves behind.  It is unconstrained, so every theorem holds
  whatever the operating system makes fail.
* The process environment (`$HOME`, the current user, `$SHELL`, the text on
  standard input, the behaviour of the external `python3 -m venv` command) is
  the read-only record `Env`.
* `State` holds the filesystem and the trace of observable events: text
  written to standard output, external commands started, and a log of the
  entries into the top-level functions that `main` dispatches to.
* `os.Exit` is the `Res.exit` outcome.

Go strings are modelled at the level of Unicode code points.
-/

namespace Vengo

set_option maxRecDepth 8000

/-! ## Filesystem -/

/-- An absolute, cleaned path: the list of its components below `/`. -/
abbrev Path := List String

/-- What a path names: a directory or a regular file with its content. -/
inductive Kind where
  | dir
  | file (content : List Char)
  deriving DecidableEq, Repr

/-- The filesystem: a table from paths to entries. -/
abbrev FS := List (Path × Kind)

/-- The error numbers that the modelled system calls can return. -/
inductive Errno where
  | ENOENT
  | ENOTDIR
  | EISDIR
  | EBUSY
  | EACCES
  | EPERM
  | ENAMETOOLONG
  | ELOOP
  | EINVAL
  | ENOSPC
  deriving DecidableEq, Repr

/-- The text of `syscall.Errno.Error()`. -/
def Errno.text : Errno → String
  | .ENOENT => "no such file or directory"
  | .ENOTDIR => "not a directory"
  | .EISDIR => "is a directory"
  | .EBUSY => "device or resource busy"
  | .EACCES => "permission denied"
  | .EPERM => "operation not permitted"
  | .ENAMETOOLONG => "file name too long"
  | .ELOOP => "too many levels of symbolic links"
  | .EINVAL => "invalid argument"
  | .ENOSPC => "no space left on device"

/-- The result of a system call: a value or an error number. -/
inductive SysRes (α : Type) where
  | ok (a : α)
  | err (e : Errno)
  deriving DecidableEq, Repr

/-- The entry stored for a path, if any. -/
def lookup : FS → Path → Option Kind
  | [], _ => none
  | (q, k) :: rest, p => if q = p then some k else lookup rest p

/-- Path resolution from the directory `cur` (of kind `k`) along the remaining
components: a missing component is `ENOENT`, a component looked up inside a
regular file is `ENOTDIR`. -/
def statFrom (fs : FS) : Path → Kind → List String → SysRes Kind
  | _, k, [] => .ok k
  | _, .file _, _ :: _ => .err .ENOTDIR
  | cur, .dir, c :: rest =>
    match lookup fs (cur ++ [c]) with
    | none => .err .ENOENT
    | some k => statFrom fs (cur ++ [c]) k rest

/-- What the table holds at the path `p`, resolved from `/`. -/
def resolve (fs : FS) (p : Path) : SysRes Kind := statFrom fs [] .dir p

/-- The failures of system calls that the table does not explain.  Each field
takes the filesystem and the path of the call; `none` means that the call
behaves as the table says. -/
structure Faults where
  /-- The error with which `os.Stat` fails. -/
  stat : FS → Path → Option Errno
  /-- The error with which `os.Open` fails. -/
  openRead : FS → Path → Option Errno
  /-- The number of code points that reading the file delivers before it fails,
  and the error. -/
  read : FS → Path → Option (Nat × Errno)
  /-- The error with which `os.OpenFile(p, os.O_APPEND|os.O_WRONLY, 0644)`
  fails. -/
  openAppend : FS → Path → Option Errno
  /-- The number of code points of the data that `WriteString` writes before it
  fails, and the error. -/
  write : FS → Path → List Char → Option (Nat × Errno)
  /-- The filesystem that a failing `os.RemoveAll` leaves behind, and its
  error. -/
  remove : FS → Path → Option (FS × Errno)
  /-- The error with which `os.ReadDir` fails. -/
  readDir : FS → Path → Option Errno
  /-- The error with which `os.MkdirAll` fails. -/
  mkdir : FS → Path → Option Errno

/-- The call `os.Stat(p)`. -/
def stat (flt : Faults) (fs : FS) (p : Path) : SysRes Kind :=
  match flt.stat fs p with
  | some e => .err e
  | none => resolve fs p

/-- The test `os.IsNotExist(err)` on the result of a system call. -/
def isNotExist {α : Type} : SysRes α → Bool
  | .err .ENOENT => true
  | _ => false

/-- The path `p` is `q` or an ancestor of `q`. -/
def isAncestorOrSelf : Path → Path → Bool
  | [], _ => true
  | _ :: _, [] => false
  | a :: p, b :: q => if a = b then isAncestorOrSelf p q else false

/-- The walk of `os.MkdirAll`: creates every missing directory on the way. -/
def mkdirAllFrom : FS → Path → Kind → List String → SysRes FS
  | fs, _, _, [] => .ok fs
  | _, _, .file _, _ :: _ => .err .ENOTDIR
  | fs, cur, .dir, c :: rest =>
    match lookup fs (cur ++ [c]) with
    | none => mkdirAllFrom (fs ++ [(cur ++ [c], .dir)]) (cur ++ [c]) .dir rest
    | some k => mkdirAllFrom fs (cur ++ [c]) k rest

/-- The call `os.MkdirAll(p, 0755)`; the last component must not be a regular
file. -/
def mkdirAll (flt : Faults) (fs : FS) (p : Path) : SysRes FS :=
  match flt.mkdir fs p with
  | some e => .err e
  | none =>
    match resolve fs p with
    | .ok (.file _) => .err .ENOTDIR
    | _ => mkdirAllFrom fs [] .dir p

/-- The call `os.RemoveAll(p)`: the filesystem afterwards and the error
returned.  When the call does not fail for a reason outside the table, the
entry at `p` and everything below it is removed; a path that does not exist is
no error; the directory `/` itself cannot be removed, only emptied. -/
def removeAll (flt : Faults) (fs : FS) (p : Path) : FS × Option Errno :=
  match flt.remove fs p with
  | some (left, e) => (left, some e)
  | none =>
    match resolve fs p with
    | .err .ENOENT => (fs, none)
    | .err e => (fs, some e)
    | .ok _ =>
      (fs.filter (fun e => !isAncestorOrSelf p e.1), if p = [] then some .EBUSY else none)

/-- The call `os.OpenFile(p, os.O_APPEND|os.O_WRONLY, 0644)`: succeeds on an
existing regular file that can be written only (there is no `O_CREATE`). -/
def openAppend (flt : Faults) (fs : FS) (p : Path) : SysRes Unit :=
  match flt.openAppend fs p with
  | some e => .err e
  | none =>
    match resolve fs p with
    | .ok (.file _) => .ok ()
    | .ok .dir => .err .EISDIR
    | .err e => .err e

/-- The call `os.Open(p)`: what was opened, or the error. -/
def openRead (flt : Faults) (fs : FS) (p : Path) : SysRes Kind :=
  match flt.openRead fs p with
  | some e => .err e
  | none => resolve fs p

/-- What reading the opened `p` to its end delivers: the text read, and the
error that ended the reading if it was not the end of the file.  Reading a
directory fails at once. -/
def readAll (flt : Faults) (fs : FS) (p : Path) : Kind → List Char × Option Errno
  | .dir => ([], some .EISDIR)
  | .file content =>
    match flt.read fs p with
    | some (n, e) => (content.take n, some e)
    | none => (content, none)

/-- The effect of a successful `file.WriteString(data)` on a file opened for
append. -/
def writeAppend (fs : FS) (p : Path) (data : List Char) : FS :=
  fs.map (fun e => if e.1 = p then
    (match e.2 with
      | .file c => (e.1, Kind.file (c ++ data))
      | .dir => e)
    else e)

/-- An `os.DirEntry`: the name and whether the entry is a directory. -/
structure DirEntry where
  name : String
  isDir : Bool
  deriving DecidableEq, Repr

/-- The name of `q` when `q` is a direct child of `p`. -/
def childOf (p q : Path) : Option String :=
  if q.dropLast = p then q.getLast? else none

/-- The direct children of `p`, in table order. -/
def children (fs : FS) (p : Path) : List DirEntry :=
  fs.filterMap (fun e => (childOf p e.1).map (fun n => ⟨n, decide (e.2 = Kind.dir)⟩))

/-- Go string comparison `a <= b` (bytewise, which on UTF-8 is the order of
the code points). -/
def strLe : List Char → List Char → Bool
  | [], _ => true
  | _ :: _, [] => false
  | x :: xs, y :: ys =>
    if x.toNat < y.toNat then true
    else if y.toNat < x.toNat then false
    else strLe xs ys

/-- Insertion into a list of entries sorted by file name. -/
def insertEntry (d : DirEntry) : List DirEntry → List DirEntry
  | [] => [d]
  | x :: xs => if strLe d.name.data x.name.data then d :: x :: xs else x :: insertEntry d xs

/-- Sorts directory entries by file name. -/
def sortEntries (l : List DirEntry) : List DirEntry := l.foldr insertEntry []

/-- The call `os.ReadDir(p)`: all entries of the directory, sorted by file
name. -/
def readDir (flt : Faults) (fs : FS) (p : Path) : SysRes (List DirEntry) :=
  match flt.readDir fs p with
  | some e => .err e
  | none =>
    match resolve fs p with
    | .ok .dir => .ok (sortEntries (children fs p))
    | .ok (.file _) => .err .ENOTDIR
    | .err e => .err e

/-! ## Paths as text -/

/-- The text of a path. -/
def pathStr (p : Path) : String :=
  if p = [] then "/" else String.join (p.map (fun c => "/" ++ c))

/-- The text of an `*fs.PathError`. -/
def pathError (op : String) (p : Path) (e : Errno) : String :=
  op ++ " " ++ pathStr p ++ ": " ++ e.text

/-- Splits text at every `/`. -/
def splitSlash (acc : List Char) : List Char → List String
  | [] => [String.mk acc.reverse]
  | c :: rest => if c = '/' then String.mk acc.reverse :: splitSlash [] rest
                 else splitSlash (c :: acc) rest

/-- One component of `filepath.Clean` on a rooted path: empty and `.`
components are dropped, `..` removes the last component (and is dropped at
`/`). -/
def cleanStep (p : Path) (c : String) : Path :=
  if c = "" ∨ c = "." then p
  else if c = ".." then p.dropLast
  else p ++ [c]

/-- The call `filepath.Join(base, name)` for a cleaned absolute `base`. -/
def filepathJoin (base : Path) (name : String) : Path :=
  (splitSlash [] name.data).foldl cleanStep base

/-! ## Text scanning -/

/-- The call `strings.Contains(s, substr)`. -/
def stringsContains : List Char → List Char → Bool
  | [], substr => substr.isEmpty
  | c :: s, substr => substr.isPrefixOf (c :: s) || stringsContains s substr

/-- The constant `bufio.MaxScanTokenSize`. -/
def maxScanTokenSize : Nat := 64 * 1024

/-- The number of bytes of a code point in UTF-8. -/
def utf8Len (c : Char) : Nat :=
  if c.toNat < 0x80 then 1
  else if c.toNat < 0x800 then 2
  else if c.toNat < 0x10000 then 3
  else 4

/-- The number of bytes of a text in UTF-8. -/
def byteLen (l : List Char) : Nat := (l.map utf8Len).sum

/-- The lines of a text as `bufio.ScanLines` cuts them, before the trailing
carriage return is dropped: each ends at a newline or at the end of input, and
an empty last line is not a line. -/
def rawLines (acc : List Char) : List Char → List (List Char)
  | [] => if acc.isEmpty then [] else [acc.reverse]
  | c :: rest => if c = '\n' then acc.reverse :: rawLines [] rest
                 else rawLines (c :: acc) rest

/-- The helper `dropCR` of `bufio.ScanLines`. -/
def dropCR (l : List Char) : List Char :=
  if l.getLast? = some '\r' then l.dropLast else l

/-- How the loop over `scanner.Scan()` ends. -/
inductive ScanOutcome where
  | found
  | notFound
  | tooLong
  deriving DecidableEq, Repr

/-- The loop `for scanner.Scan() { if strings.Contains(scanner.Text(), sig) ... }`
over the lines of a file: a line that does not fit the scanner's buffer stops
the scan with `bufio.ErrTooLong`. -/
def scanFor (sig : List Char) : List (List Char) → ScanOutcome
  | [] => .notFound
  | l :: ls =>
    if maxScanTokenSize ≤ byteLen l then .tooLong
    else if stringsContains (dropCR l) sig then .found
    else scanFor sig ls

/-- The space characters of package `fmt` (`isSpace`). -/
def isSpace (r : Char) : Bool :=
  let n := r.toNat
  (0x0009 ≤ n && n ≤ 0x000d) || n = 0x0020 || n = 0x0085 || n = 0x00a0 || n = 0x1680 ||
  (0x2000 ≤ n && n ≤ 0x200a) || (0x2028 ≤ n && n ≤ 0x2029) || n = 0x202f || n = 0x205f ||
  n = 0x3000

/-- The method `SkipSpace` of the scan state for `Scanln` (a newline is not
space): `none` is the error "unexpected newline". -/
def skipSpace : List Char → Option (List Char)
  | [] => some []
  | r :: rest =>
    if r = '\r' ∧ rest.head? = some '\n' then skipSpace rest
    else if r = '\n' then none
    else if !isSpace r then some (r :: rest)
    else skipSpace rest

/-- The call `fmt.Scanln(&confirm)` for a string variable holding `init`: the
value of the variable afterwards.  Leading spaces are skipped and the next
space-delimited word is stored; on an empty line or at the end of input the
variable keeps its value.  What follows the word on the line only affects the
error that `Scanln` returns. -/
def scanln (stdin : List Char) (init : String) : String :=
  match skipSpace stdin with
  | none => init
  | some [] => init
  | some (r :: rest) => String.mk ((r :: rest).takeWhile (fun c => !isSpace c))

/-! ## Process state -/

/-- The top-level functions whose entry is logged. -/
inductive Fn where
  | usage
  | ensureVengoDir
  | addShellFunction
  | createEnv (name : String)
  | listEnvs
  | activateEnv (name : String)
  | deleteEnv (name : String)
  deriving DecidableEq, Repr

/-- An observable event of a run. -/
inductive Event where
  | call (f : Fn)
  | out (text : String)
  | exec (argv : List String)
  deriving DecidableEq, Repr

/-- What an external command did. -/
structure ExecResult where
  fs : FS
  output : String
  err : Option String

/-- The read-only environment of the process. -/
structure Env where
  /-- The result of `os.UserHomeDir()`, a cleaned absolute path; `none` when
  `$HOME` is not defined. -/
  home : Option Path
  /-- The home directory of `user.Current()`, a cleaned absolute path; `none`
  when the call fails. -/
  usrHome : Option Path
  /-- The text of the error of `user.Current()` when it fails. -/
  usrErr : String
  /-- The value of `os.Getenv("SHELL")`. -/
  shell : String
  /-- The text on standard input. -/
  stdin : List Char
  /-- The behaviour of `python3 -m venv <path>` on a filesystem. -/
  venv : FS → Path → ExecResult
  /-- The failures of system calls for reasons outside the table. -/
  faults : Faults

/-- The mutable state of a run. -/
structure State where
  fs : FS
  trace : List Event
  deriving DecidableEq, Repr

/-- The outcome of a function: it returns, or the process exits. -/
inductive Res (α : Type) where
  | ret (a : α) (s : State)
  | exit (code : Nat) (s : State)
  deriving DecidableEq, Repr

/-- The state in which a function ended. -/
def Res.state {α : Type} : Res α → State
  | .ret _ s => s
  | .exit _ s => s

/-- Appends an event to the trace. -/
def emit (ev : Event) (s : State) : State := { s with trace := s.trace ++ [ev] }

/-- The call `fmt.Print(text)`. -/
def print (text : String) (s : State) : State := emit (.out text) s

/-- The call `fmt.Println(text)`. -/
def println (text : String) (s : State) : State := print (text ++ "\n") s

/-- The text written to standard output so far. -/
def stdout (s : State) : List String :=
  s.trace.filterMap (fun ev => match ev with
    | .out t => some t
    | _ => none)

/-- The logged function entries so far. -/
def calls (s : State) : List Fn :=
  s.trace.filterMap (fun ev => match ev with
    | .call f => some f
    | _ => none)

/-! ## The program -/

/-- The constant `envDir`. -/
def envDir : String := ".vengo"

/-- The marker that `addShellFunction` and `activateEnv` look for. -/
def functionSignature : List Char := "vengo() \x7b".data

/-- The text of the shell function that `addShellFunction` appends. -/
def shellFunction : List Char :=
  ("\nvengo() \x7b\n" ++
   "    if [ \"$1\" = \"activate\" ]; then\n" ++
   "        if [ -z \"$2\" ]; then\n" ++
   "            echo \"Usage: vengo activate <env-name>\"\n" ++
   "            return 1\n" ++
   "        fi\n" ++
   "        source \"$HOME/.vengo/$2/bin/activate\"\n" ++
   "    else\n" ++
   "        command vengo \"$@\"\n" ++
   "    fi\n" ++
   "\x7d\n").data

/-- The text that `usage` prints. -/
def usageText : String :=
  "🦥 Vengo — Python virtual environment manager\n" ++
  "Usage:\n" ++
  "  vengo create <env-name>     Create a new virtual environment\n" ++
  "  vengo list                  List all virtual environments\n" ++
  "  vengo activate <env-name>   Show activation command for environment\n" ++
  "  vengo delete <env-name>     Delete an environment"

/-- The function `getEnvHome`. -/
def getEnvHome (e : Env) (s : State) : Res Path :=
  match e.home with
  | none => .exit 1 (println "❌ Error fetching home directory: $HOME is not defined" s)
  | some home => .ret (filepathJoin home envDir) s

/-- The function `ensureVengoDir`. -/
def ensureVengoDir (e : Env) (s : State) : Res Unit :=
  let s := emit (.call .ensureVengoDir) s
  match getEnvHome e s with
  | .exit c s => .exit c s
  | .ret dir s =>
    if isNotExist (stat e.faults s.fs dir) then
      match mkdirAll e.faults s.fs dir with
      | .err err =>
        .exit 1 (println ("❌ Failed to create vengo directory: " ++ pathError "mkdir" dir err) s)
      | .ok fs => .ret () { s with fs := fs }
    else .ret () s

/-- The function `usage`. -/
def usage (s : State) : State :=
  println usageText (emit (.call .usage) s)

/-- The function `checkIfEnvExists`. -/
def checkIfEnvExists (e : Env) (name : String) (s : State) : Res Bool :=
  match getEnvHome e s with
  | .exit c s => .exit c s
  | .ret home s =>
    let envPath := filepathJoin home name
    if !isNotExist (stat e.faults s.fs envPath) then .ret true s
    else .ret false s

/-- The function `createEnv`. -/
def createEnv (e : Env) (name : String) (s : State) : Res Unit :=
  let s := emit (.call (.createEnv name)) s
  match getEnvHome e s with
  | .exit c s => .exit c s
  | .ret home s =>
    let envPath := filepathJoin home name
    match checkIfEnvExists e name s with
    | .exit c s => .exit c s
    | .ret true s => .ret () (println "⚠️ Environment already exists." s)
    | .ret false s =>
      let s := emit (.exec ["python3", "-m", "venv", pathStr envPath]) s
      let r := e.venv s.fs envPath
      let s := print r.output { s with fs := r.fs }
      match r.err with
      | some err => .ret () (println ("❌ Failed to create virtual environment: " ++ err) s)
      | none => .ret () (print ("✅ Created virtual environment '" ++ name ++ "'\n") s)

/-- The choice of the profile file, shared by `activateEnv` and
`addShellFunction`. -/
def rcFileOf (e : Env) (usrHome : Path) : Path :=
  if stringsContains e.shell.data "zsh".data then filepathJoin usrHome ".zshrc"
  else filepathJoin usrHome ".bashrc"

/-- The function `isShellFunctionAdded`. -/
def isShellFunctionAdded (flt : Faults) (rcFile : Path) (sig : List Char) (s : State) :
    Bool × State :=
  match openRead flt s.fs rcFile with
  | .err err => (false, println ("❌ Error opening file: " ++ pathError "open" rcFile err) s)
  | .ok file =>
    match scanFor sig (rawLines [] (readAll flt s.fs rcFile file).1) with
    | .found => (true, s)
    | .tooLong => (false, println "❌ Error reading file: bufio.Scanner: token too long" s)
    | .notFound =>
      match (readAll flt s.fs rcFile file).2 with
      | some err =>
        (false, println ("❌ Error reading file: " ++ pathError "read" rcFile err) s)
      | none => (false, s)

/-- The function `activateEnv`. -/
def activateEnv (e : Env) (name : String) (s : State) : Res Unit :=
  let s := emit (.call (.activateEnv name)) s
  match e.usrHome with
  | none => .ret () (println ("❌ Error getting current user: " ++ e.usrErr) s)
  | some usrHome =>
    let rcFile := rcFileOf e usrHome
    match isShellFunctionAdded e.faults rcFile functionSignature s with
    | (false, s) => .ret () (println "⚠️ Shell function not added. Run 'vengo' to add it." s)
    | (true, s) =>
      match checkIfEnvExists e name s with
      | .exit c s => .exit c s
      | .ret false s => .ret () (println "⚠️ Environment does not exist." s)
      | .ret true s => .ret () s

/-- The function `listEnvs`. -/
def listEnvs (e : Env) (s : State) : Res Unit :=
  let s := emit (.call .listEnvs) s
  match getEnvHome e s with
  | .exit c s => .exit c s
  | .ret root s =>
    match readDir e.faults s.fs root with
    | .err err =>
      .ret () (println ("❌ Error reading environments: " ++ pathError "open" root err) s)
    | .ok envs =>
      if envs.length = 0 then .ret () (println "⚠️ No virtual environments created yet." s)
      else
        let s := println "📌 Your virtual environments:" s
        .ret () (envs.foldl (fun s env => if env.isDir then println (" - " ++ env.name) s else s) s)

/-- The function `deleteEnv`. -/
def deleteEnv (e : Env) (name : String) (s : State) : Res Unit :=
  let s := emit (.call (.deleteEnv name)) s
  match getEnvHome e s with
  | .exit c s => .exit c s
  | .ret home s =>
    let path := filepathJoin home name
    match checkIfEnvExists e name s with
    | .exit c s => .exit c s
    | .ret false s => .ret () (println "⚠️ Environment does not exist." s)
    | .ret true s =>
      let s := print ("⚠️ Are you sure you want to delete '" ++ name ++ "'? [y/N]: ") s
      let confirm := scanln e.stdin ""
      if confirm ≠ "y" ∧ confirm ≠ "Y" then .ret () (println "❌ Aborted deletion." s)
      else
        match removeAll e.faults s.fs path with
        | (fs, some err) =>
          .ret () (println ("❌ Failed to delete environment: " ++ pathError "unlinkat" path err)
            { s with fs := fs })
        | (fs, none) =>
          .ret () (print ("🗑  Deleted environment '" ++ name ++ "'.\n") { s with fs := fs })

/-- The function `addShellFunction`. -/
def addShellFunction (e : Env) (s : State) : State :=
  let s := emit (.call .addShellFunction) s
  match e.usrHome with
  | none => println ("❌ Error getting current user: " ++ e.usrErr) s
  | some usrHome =>
    let rcFile := rcFileOf e usrHome
    match isShellFunctionAdded e.faults rcFile functionSignature s with
    | (true, s) => s
    | (false, s) =>
      match openAppend e.faults s.fs rcFile with
      | .err err =>
        println ("❌ Error opening file for writing: " ++ pathError "open" rcFile err) s
      | .ok _ =>
        match e.faults.write s.fs rcFile shellFunction with
        | some (n, err) =>
          println ("❌ Error writing to file: " ++ pathError "write" rcFile err)
            { s with fs := writeAppend s.fs rcFile (shellFunction.take n) }
        | none =>
          let s := { s with fs := writeAppend s.fs rcFile shellFunction }
          let s := println ("✅ Shell function added to " ++ pathStr rcFile) s
          println ("Please restart your terminal or run 'source " ++ pathStr rcFile ++
            " ' to apply the changes.") s

/-- The function `main`, on the argument vector `os.Args`. -/
def main (e : Env) (args : List String) (s : State) : Res Unit :=
  if args.length < 2 then .ret () (usage s)
  else
    match ensureVengoDir e s with
    | .exit c s => .exit c s
    | .ret _ s =>
      let s := addShellFunction e s
      let cmd := args.getD 1 ""
      if cmd = "create" then
        if args.length ≠ 3 then .ret () (println "Usage: vengo create <env-name>" s)
        else createEnv e (args.getD 2 "") s
      else if cmd = "list" then listEnvs e s
      else if cmd = "activate" then
        if args.length ≠ 3 then .ret () (println "Usage: vengo activate <env-name>" s)
        else activateEnv e (args.getD 2 "") s
      else if cmd = "delete" then
        if args.length ≠ 3 then .ret () (println "Usage: vengo delete <env-name>" s)
        else deleteEnv e (args.getD 2 "") s
      else .ret () (usage s)

/-! ## Auxiliary notions -/

/-- The number of positions of `s` at which a copy of `sub` starts. -/
def occurrences (sub : List Char) : List Char → Nat
  | [] => if sub.isEmpty then 1 else 0
  | c :: s => (if sub.isPrefixOf (c :: s) then 1 else 0) + occurrences sub s

/-- The entry at `q` after `data` was appended to the file at `p`. -/
def appended (p : Path) (data : List Char) (q : Path) (k : Kind) : Kind :=
  if q = p then
    (match k with
      | .file c => .file (c ++ data)
      | .dir => .dir)
  else k

/-! ## Traces -/

/-- Whether an event is a logged function entry. -/
def Event.isCall : Event → Bool
  | .call _ => true
  | _ => false

/-- From `s` to `s1` the trace grew by output and external commands only: no
logged function was entered. -/
def Quiet (s s1 : State) : Prop :=
  ∃ t, s1.trace = s.trace ++ t ∧ ∀ ev ∈ t, ev.isCall = false

/-- From `s` to `s1` the function `f` was entered, and after that entry no
other logged function: the trace grew by the entry of `f` followed by output
and external commands only. -/
def Runs (f : Fn) (s s1 : State) : Prop :=
  ∃ t, s1.trace = s.trace ++ Event.call f :: t ∧ ∀ ev ∈ t, ev.isCall = false

/-! ## Sample inputs -/

/-- A `python3 -m venv` that creates the target directory and succeeds. -/
def sampleVenv (fs : FS) (p : Path) : ExecResult := ⟨fs ++ [(p, .dir)], "", none⟩

/-- The failures on the system of user `u`: a path component of more than 255
bytes is `ENAMETOOLONG`, and the user cannot remove `/home/u` or a directory
above it: `os.RemoveAll` empties `/home/u` and fails with `EACCES`. -/
def sampleFaults : Faults where
  stat := fun _ p => if p.any (fun c => decide (255 < byteLen c.data)) then some .ENAMETOOLONG
    else none
  openRead := fun _ _ => none
  read := fun _ _ => none
  openAppend := fun _ _ => none
  write := fun _ _ _ => none
  remove := fun fs p =>
    if isAncestorOrSelf p ["home", "u"] then
      some (fs.filter (fun en => !(isAncestorOrSelf ["home", "u"] en.1 &&
        decide (en.1 ≠ ["home", "u"]))), .EACCES)
    else none
  readDir := fun _ _ => none
  mkdir := fun _ _ => none

/-- The failures on a system where the profile file of user `u` is
read-only. -/
def readOnlyProfileFaults : Faults :=
  { sampleFaults with
    openAppend := fun _ p => if p = ["home", "u", ".bashrc"] then some .EACCES else none }

/-- The failures on a system with a full disk and a locked home directory:
a write stops after five code points with `ENOSPC`, reading a file stops after
three code points with `EINVAL`, and directories can neither be read nor
created. -/
def brokenFaults : Faults :=
  { sampleFaults with
    read := fun _ _ => some (3, .EINVAL)
    write := fun _ _ _ => some (5, .ENOSPC)
    readDir := fun _ _ => some .EACCES
    mkdir := fun _ _ => some .EACCES }

/-- The environment of user `u` with a bash shell and the given text on
standard input. -/
def sampleEnv (input : String) : Env :=
  ⟨some ["home", "u"], some ["home", "u"], "", "/bin/bash", input.data, sampleVenv, sampleFaults⟩

/-- The environment of a process without `$HOME`. -/
def homelessEnv : Env :=
  ⟨none, some ["home", "u"], "", "/bin/bash", [], sampleVenv, sampleFaults⟩

/-- A filesystem with the given profile text and the given entries below the
registry root `/home/u/.vengo`. -/
def sampleFS (profile : String) (registry : FS) : FS :=
  [(["home"], .dir), (["home", "u"], .dir),
   (["home", "u", ".bashrc"], .file profile.data),
   (["home", "u", ".vengo"], .dir)] ++ registry

/-- A registry with the environment `e` and a stray regular file. -/
def sampleRegistry : FS :=
  [(["home", "u", ".vengo", "e"], .dir),
   (["home", "u", ".vengo", "e", "pyvenv.cfg"], .file "home = /usr/bin\n".data),
   (["home", "u", ".vengo", "notes.txt"], .file [])]

/-- A state at process start: the profile has no shell function yet. -/
def sampleState : State := ⟨sampleFS "# profile\n" sampleRegistry, []⟩

/-- A state at process start whose profile already has the shell function. -/
def installedState : State :=
  ⟨sampleFS ("# profile\n" ++ String.mk shellFunction) sampleRegistry, []⟩

/-- A state whose profile mentions the marker in a comment only. -/
def commentState : State := ⟨sampleFS "# vengo() \x7b\n" sampleRegistry, []⟩

/-- A state whose registry holds a single regular file and no directory. -/
def strayFileState : State :=
  ⟨sampleFS "# profile\n" [(["home", "u", ".vengo", "notes.txt"], .file [])], []⟩

/-- A state in which `/home/u/.vengo` is a regular file. -/
def rootIsFileState : State :=
  ⟨[(["home"], .dir), (["home", "u"], .dir), (["home", "u", ".vengo"], .file [])], []⟩

/-- A state without the registry root. -/
def noRootState : State :=
  ⟨[(["home"], .dir), (["home", "u"], .dir), (["home", "u", ".bashrc"], .file [])], []⟩


/-! ## Paths -/

theorem filepathJoin_envDir (home : Path) : filepathJoin home envDir = home ++ [".vengo"] := by
  have h : splitSlash [] envDir.data = [".vengo"] := by decide
  simp [filepathJoin, h, cleanStep]

theorem splitSlash_noSlash (l acc : List Char) (h : '/' ∉ l) :
    splitSlash acc l = [String.mk (acc.reverse ++ l)] := by
  induction l generalizing acc with
  | nil => simp [splitSlash]
  | cons c rest ih =>
    have hc : c ≠ '/' := fun hc => h (by simp [hc])
    have hr : '/' ∉ rest := fun hr => h (by simp [hr])
    simp [splitSlash, hc, ih _ hr]

theorem filepathJoin_simple (base : Path) (name : String)
    (h1 : name ≠ "") (h2 : name ≠ ".") (h3 : name ≠ "..") (h4 : '/' ∉ name.data) :
    filepathJoin base name = base ++ [name] := by
  simp [filepathJoin, splitSlash_noSlash _ _ h4, cleanStep, h1, h2, h3]

theorem filepathJoin_empty (base : Path) : filepathJoin base "" = base := by
  have h : splitSlash [] "".data = [""] := by decide
  simp [filepathJoin, h, cleanStep]

/-! ## Path resolution -/

theorem statFrom_append (fs : FS) (cur : Path) (k : Kind) (p q : List String) :
    statFrom fs cur k (p ++ q) =
      match statFrom fs cur k p with
      | .ok k1 => statFrom fs (cur ++ p) k1 q
      | .err e => .err e := by
  induction p generalizing cur k with
  | nil => simp [statFrom]
  | cons c rest ih =>
    cases k with
    | file content => simp [statFrom]
    | dir =>
      simp only [List.cons_append, statFrom]
      cases hl : lookup fs (cur ++ [c]) with
      | none => simp
      | some k1 => simp [ih, List.append_assoc]

theorem resolve_child (fs : FS) (root : Path) (name : String) (h : resolve fs root = .ok .dir) :
    resolve fs (root ++ [name]) =
      match lookup fs (root ++ [name]) with
      | none => .err .ENOENT
      | some k => .ok k := by
  unfold resolve at h ⊢
  rw [statFrom_append, h]
  simp only [List.nil_append, statFrom]

theorem resolve_of_stat (flt : Faults) (fs : FS) (p : Path) (k : Kind)
    (h : stat flt fs p = .ok k) : resolve fs p = .ok k := by
  unfold stat at h
  split at h
  · exact SysRes.noConfusion h
  · exact h

theorem stat_of_noFault (flt : Faults) (fs : FS) (p : Path) (h : flt.stat fs p = none) :
    stat flt fs p = resolve fs p := by
  simp [stat, h]

/-! ## Registry: existence and creation -/

theorem checkIfEnvExists_home (e : Env) (name : String) (s s1 : State) (b : Bool)
    (h : checkIfEnvExists e name s = .ret b s1) : ∃ home, e.home = some home := by
  unfold checkIfEnvExists getEnvHome at h
  cases hh : e.home with
  | none => simp [hh] at h
  | some home => exact ⟨home, rfl⟩

theorem checkIfEnvExists_eq (e : Env) (home : Path) (name : String) (s : State)
    (hh : e.home = some home) :
    checkIfEnvExists e name s =
      .ret (!isNotExist (stat e.faults s.fs (filepathJoin (home ++ [".vengo"]) name))) s := by
  unfold checkIfEnvExists getEnvHome
  simp only [hh, filepathJoin_envDir]
  split <;> simp_all

/-- C3: when `checkIfEnvExists name` is true, `createEnv name` returns after
printing the "already exists" message: the filesystem is the same as before,
and the only events of the call are its entry and that message, so no external
command is started. -/
theorem createEnv_existing_noop (e : Env) (name : String) (s : State)
    (h : checkIfEnvExists e name s = .ret true s) :
    createEnv e name s =
      .ret () ⟨s.fs, s.trace ++ [.call (.createEnv name), .out "⚠️ Environment already exists.\n"]⟩ := by
  obtain ⟨home, hh⟩ := checkIfEnvExists_home e name s s true h
  have h1 := checkIfEnvExists_eq e home name (emit (.call (.createEnv name)) s) hh
  have h2 := checkIfEnvExists_eq e home name s hh
  rw [h2] at h
  injection h with hb _
  have hfs : (emit (.call (.createEnv name)) s).fs = s.fs := rfl
  rw [hfs, hb] at h1
  unfold createEnv
  simp only [getEnvHome, hh, h1]
  simp [println, print, emit]

theorem createEnv_existing_noop_witness :
    checkIfEnvExists (sampleEnv "") "e" sampleState = .ret true sampleState ∧
    createEnv (sampleEnv "") "e" sampleState =
      .ret () ⟨sampleState.fs, sampleState.trace ++
        [.call (.createEnv "e"), .out "⚠️ Environment already exists.\n"]⟩ :=
  ⟨by decide, createEnv_existing_noop (sampleEnv "") "e" sampleState (by decide)⟩

/-- C4, as stated, fails: `checkIfEnvExists` is true for the empty name (the
joined path is the registry root itself), for `..` (the home directory) and
for `e/pyvenv.cfg` (a path two levels below the root), although the root has
no direct entry of any of these names.  It is also true without any entry of
the name when `os.Stat` fails with an error other than not-exist: `ENOTDIR`
when the root is a regular file, `ENAMETOOLONG` for a name of 256 bytes. -/
theorem checkIfEnvExists_not_entry :
    (checkIfEnvExists (sampleEnv "") "" sampleState = .ret true sampleState ∧
      lookup sampleState.fs (["home", "u", ".vengo"] ++ [""]) = none) ∧
    (checkIfEnvExists (sampleEnv "") ".." sampleState = .ret true sampleState ∧
      lookup sampleState.fs (["home", "u", ".vengo"] ++ [".."]) = none) ∧
    (checkIfEnvExists (sampleEnv "") "e/pyvenv.cfg" sampleState = .ret true sampleState ∧
      lookup sampleState.fs (["home", "u", ".vengo"] ++ ["e/pyvenv.cfg"]) = none) ∧
    (checkIfEnvExists (sampleEnv "") "zz" rootIsFileState = .ret true rootIsFileState ∧
      lookup rootIsFileState.fs (["home", "u", ".vengo"] ++ ["zz"]) = none) ∧
    (checkIfEnvExists (sampleEnv "") (String.mk (List.replicate 256 'a')) sampleState =
        .ret true sampleState ∧
      lookup sampleState.fs (["home", "u", ".vengo"] ++ [String.mk (List.replicate 256 'a')]) =
        none) := by
  decide

/-- C4, amended: for a name that is a single path component (not empty, not
`.` or `..`, without `/`), a registry root that is a directory, and an
`os.Stat` that does not fail on the joined path for a reason outside the
filesystem's content (so it succeeds or fails with not-exist),
`checkIfEnvExists name` returns, and returns true exactly when an entry of
that name exists directly under the root. -/
theorem checkIfEnvExists_iff_entry (e : Env) (home : Path) (name : String) (s : State)
    (hh : e.home = some home)
    (hroot : stat e.faults s.fs (home ++ [".vengo"]) = .ok .dir)
    (hstat : e.faults.stat s.fs (home ++ [".vengo"] ++ [name]) = none)
    (h1 : name ≠ "") (h2 : name ≠ ".") (h3 : name ≠ "..") (h4 : '/' ∉ name.data) :
    ∃ b, checkIfEnvExists e name s = .ret b s ∧
      (b = true ↔ lookup s.fs (home ++ [".vengo"] ++ [name]) ≠ none) := by
  refine ⟨_, checkIfEnvExists_eq e home name s hh, ?_⟩
  rw [filepathJoin_simple _ _ h1 h2 h3 h4, stat_of_noFault _ _ _ hstat,
    resolve_child _ _ _ (resolve_of_stat _ _ _ _ hroot)]
  cases lookup s.fs (home ++ [".vengo"] ++ [name]) <;> simp [isNotExist]

theorem checkIfEnvExists_iff_entry_witness :
    ∃ b, checkIfEnvExists (sampleEnv "") "e" sampleState = .ret b sampleState ∧
      (b = true ↔ lookup sampleState.fs (["home", "u"] ++ [".vengo"] ++ ["e"]) ≠ none) :=
  checkIfEnvExists_iff_entry (sampleEnv "") ["home", "u"] "e" sampleState rfl
    (by decide) (by decide) (by decide) (by decide) (by decide) (by decide)

/-! ## Registry: listing -/

theorem lookup_isSome_of_mem (fs : FS) (p : Path) (k : Kind) (h : (p, k) ∈ fs) :
    lookup fs p ≠ none := by
  induction fs with
  | nil => simp at h
  | cons x rest ih =>
    obtain ⟨q, k1⟩ := x
    unfold lookup
    by_cases hq : q = p
    · simp [hq]
    · simp only [hq, if_false]
      apply ih
      rcases List.mem_cons.mp h with h | h
      · exact absurd (congrArg Prod.fst h).symm hq
      · exact h

theorem lookup_eq_of_mem_nodup (fs : FS) (p : Path) (k : Kind) (h : (p, k) ∈ fs)
    (hnd : (fs.map Prod.fst).Nodup) : lookup fs p = some k := by
  induction fs with
  | nil => simp at h
  | cons x rest ih =>
    obtain ⟨q, k1⟩ := x
    simp only [List.map_cons, List.nodup_cons] at hnd
    unfold lookup
    rcases List.mem_cons.mp h with h | h
    · injection h with hp hk
      simp [hp, hk]
    · have hq : q ≠ p := by
        rintro rfl
        exact hnd.1 (List.mem_map.mpr ⟨(q, k), h, rfl⟩)
      simp only [hq, if_false]
      exact ih h hnd.2

theorem mem_of_lookup (fs : FS) (p : Path) (k : Kind) (h : lookup fs p = some k) :
    (p, k) ∈ fs := by
  induction fs with
  | nil => simp [lookup] at h
  | cons x rest ih =>
    obtain ⟨q, k1⟩ := x
    unfold lookup at h
    by_cases hq : q = p
    · simp only [hq, if_true, Option.some.injEq] at h
      simp [hq, h]
    · simp only [hq, if_false] at h
      exact List.mem_cons_of_mem _ (ih h)

theorem childOf_eq_some (p q : Path) (n : String) : childOf p q = some n ↔ q = p ++ [n] := by
  unfold childOf
  constructor
  · intro h
    split at h
    · rename_i hp
      have := List.dropLast_append_getLast? n (by simpa using h)
      rw [hp] at this
      exact this.symm
    · simp at h
  · rintro rfl
    simp

theorem children_eq_nil (fs : FS) (p : Path) (h : ∀ n, lookup fs (p ++ [n]) = none) :
    children fs p = [] := by
  unfold children
  rw [List.filterMap_eq_nil_iff]
  intro x hx
  cases hc : childOf p x.1 with
  | none => simp
  | some n =>
    exfalso
    have hq := (childOf_eq_some p x.1 n).mp hc
    apply lookup_isSome_of_mem fs (p ++ [n]) x.2 _ (h n)
    rw [← hq]
    exact hx

/-- C5, as stated, fails: a registry that holds one regular file and no
directory is readable and has no child that is a directory, yet `listEnvs`
prints the list header and not the "no environments" message. -/
theorem listEnvs_stray_file_header :
    (children strayFileState.fs ["home", "u", ".vengo"]).filter (fun d => d.isDir) = [] ∧
    listEnvs (sampleEnv "") strayFileState =
      .ret () ⟨strayFileState.fs, [.call .listEnvs, .out "📌 Your virtual environments:\n"]⟩ := by
  decide

/-- C5, amended: for a registry root that is a directory, can be read and has
no child (the empty registry), `listEnvs` prints the "no environments" message and
nothing else: no header, no name, no error; the filesystem is unchanged. -/
theorem listEnvs_empty (e : Env) (home : Path) (s : State)
    (hh : e.home = some home)
    (hroot : stat e.faults s.fs (home ++ [".vengo"]) = .ok .dir)
    (hreadable : e.faults.readDir s.fs (home ++ [".vengo"]) = none)
    (hempty : ∀ n, lookup s.fs (home ++ [".vengo"] ++ [n]) = none) :
    listEnvs e s =
      .ret () ⟨s.fs, s.trace ++ [.call .listEnvs, .out "⚠️ No virtual environments created yet.\n"]⟩ := by
  unfold listEnvs
  simp only [getEnvHome, hh, filepathJoin_envDir, emit, readDir, hreadable,
    resolve_of_stat _ _ _ _ hroot, children_eq_nil _ _ hempty]
  simp [sortEntries, println, print, emit]

theorem listEnvs_empty_witness :
    listEnvs (sampleEnv "") ⟨sampleFS "" [], []⟩ =
      .ret () ⟨sampleFS "" [], [] ++ [.call .listEnvs, .out "⚠️ No virtual environments created yet.\n"]⟩ :=
  listEnvs_empty (sampleEnv "") ["home", "u"] ⟨sampleFS "" [], []⟩ rfl (by decide) rfl
    (by
      intro n
      simp [sampleFS, lookup])

theorem insertEntry_perm (d : DirEntry) (l : List DirEntry) : (insertEntry d l).Perm (d :: l) := by
  induction l with
  | nil => simp [insertEntry]
  | cons x xs ih =>
    unfold insertEntry
    split
    · exact List.Perm.refl _
    · exact ((List.Perm.cons x ih).trans (List.Perm.swap d x xs))

theorem sortEntries_perm (l : List DirEntry) : (sortEntries l).Perm l := by
  induction l with
  | nil => exact List.Perm.refl _
  | cons x xs ih =>
    simp only [sortEntries, List.foldr_cons]
    exact (insertEntry_perm x _).trans (List.Perm.cons x ih)

theorem mem_children (fs : FS) (p : Path) (d : DirEntry) :
    d ∈ children fs p ↔ ∃ k, (p ++ [d.name], k) ∈ fs ∧ d.isDir = decide (k = Kind.dir) := by
  unfold children
  rw [List.mem_filterMap]
  constructor
  · rintro ⟨⟨q, k⟩, hx, hd⟩
    cases hc : childOf p q with
    | none => simp [hc] at hd
    | some n =>
      simp only [hc, Option.map_some', Option.some.injEq] at hd
      have hq := (childOf_eq_some p q n).mp hc
      subst hd
      exact ⟨k, hq ▸ hx, rfl⟩
  · rintro ⟨k, hx, hd⟩
    refine ⟨(p ++ [d.name], k), hx, ?_⟩
    simp only [(childOf_eq_some p (p ++ [d.name]) d.name).mpr rfl, Option.map_some',
      Option.some.injEq]
    cases d
    simp_all

theorem children_names_nodup (fs : FS) (p : Path) (hnd : (fs.map Prod.fst).Nodup) :
    ((children fs p).map (fun d => d.name)).Nodup := by
  induction fs with
  | nil => simp [children]
  | cons x rest ih =>
    simp only [List.map_cons, List.nodup_cons] at hnd
    unfold children at ih ⊢
    rw [List.filterMap_cons]
    cases hc : childOf p x.1 with
    | none => simpa [hc] using ih hnd.2
    | some n =>
      simp only [hc, Option.map_some', List.map_cons, List.nodup_cons]
      refine ⟨?_, ih hnd.2⟩
      intro hmem
      obtain ⟨d, hd, hn⟩ := List.mem_map.mp hmem
      obtain ⟨k, hk, _⟩ := (mem_children rest p d).mp hd
      apply hnd.1
      have hq := (childOf_eq_some p x.1 n).mp hc
      rw [hq]
      exact List.mem_map.mpr ⟨(p ++ [d.name], k), hk, by simp [hn]⟩

theorem foldl_println (l : List DirEntry) (s : State) :
    l.foldl (fun s env => if env.isDir then println (" - " ++ env.name) s else s) s =
      ⟨s.fs, s.trace ++ ((l.filter (fun d => d.isDir)).map
        (fun d => Event.out (" - " ++ d.name ++ "\n")))⟩ := by
  induction l generalizing s with
  | nil => simp
  | cons d rest ih =>
    simp only [List.foldl_cons]
    rw [ih]
    cases hd : d.isDir <;> simp [hd, println, print, emit, List.filter_cons]

/-- C9: for a registry root that `os.ReadDir` reads as the non-empty list
`envs`, `listEnvs` prints the header and then one line per directory entry of
`envs`, in the order of `envs`.  The printed names are exactly the names `n`
for which the root has a direct child `n` that is a directory, and (paths
being unique in the filesystem) no name is printed twice. -/
theorem listEnvs_prints_directories (e : Env) (home : Path) (s : State) (envs : List DirEntry)
    (hh : e.home = some home)
    (hread : readDir e.faults s.fs (home ++ [".vengo"]) = .ok envs)
    (hne : envs ≠ [])
    (hnd : (s.fs.map Prod.fst).Nodup) :
    let names := (envs.filter (fun d => d.isDir)).map (fun d => d.name)
    listEnvs e s =
      .ret () ⟨s.fs, s.trace ++ [.call .listEnvs, .out "📌 Your virtual environments:\n"] ++
        names.map (fun n => Event.out (" - " ++ n ++ "\n"))⟩ ∧
    names.Nodup ∧
    ∀ n, n ∈ names ↔ lookup s.fs (home ++ [".vengo"] ++ [n]) = some .dir := by
  intro names
  have henvs : envs = sortEntries (children s.fs (home ++ [".vengo"])) := by
    unfold readDir at hread
    split at hread
    · exact SysRes.noConfusion hread
    · split at hread
      · injection hread with h
        exact h.symm
      · exact SysRes.noConfusion hread
      · exact SysRes.noConfusion hread
  refine ⟨?_, ?_, ?_⟩
  · unfold listEnvs
    have hlen : envs.length ≠ 0 := by
      intro h
      exact hne (List.length_eq_zero.mp h)
    simp only [getEnvHome, hh, filepathJoin_envDir, emit, hread, hlen, if_false, foldl_println]
    simp [println, print, emit, names, List.map_map, Function.comp_def]
  · have h1 : ((sortEntries (children s.fs (home ++ [".vengo"]))).map (fun d => d.name)).Nodup :=
      ((sortEntries_perm _).map _).nodup_iff.mpr (children_names_nodup _ _ hnd)
    rw [← henvs] at h1
    exact ((List.filter_sublist envs).map _).nodup h1
  · intro n
    simp only [names, List.mem_map, List.mem_filter]
    constructor
    · rintro ⟨d, ⟨hd, hdir⟩, rfl⟩
      rw [henvs, (sortEntries_perm _).mem_iff, mem_children] at hd
      obtain ⟨k, hk, hkd⟩ := hd
      rw [hdir] at hkd
      have : k = Kind.dir := by simpa using hkd.symm
      subst this
      exact lookup_eq_of_mem_nodup _ _ _ hk hnd
    · intro hl
      refine ⟨⟨n, true⟩, ⟨?_, rfl⟩, rfl⟩
      rw [henvs, (sortEntries_perm _).mem_iff, mem_children]
      exact ⟨Kind.dir, mem_of_lookup _ _ _ hl, by simp⟩

theorem listEnvs_prints_directories_witness :
    let names := (([⟨"e", true⟩, ⟨"notes.txt", false⟩] : List DirEntry).filter
      (fun d => d.isDir)).map (fun d => d.name)
    listEnvs (sampleEnv "") sampleState =
      .ret () ⟨sampleState.fs, sampleState.trace ++
        [.call .listEnvs, .out "📌 Your virtual environments:\n"] ++
        names.map (fun n => Event.out (" - " ++ n ++ "\n"))⟩ ∧
    names.Nodup ∧
    ∀ n, n ∈ names ↔ lookup sampleState.fs (["home", "u"] ++ [".vengo"] ++ [n]) = some .dir :=
  listEnvs_prints_directories (sampleEnv "") ["home", "u"] sampleState
    [⟨"e", true⟩, ⟨"notes.txt", false⟩] rfl (by decide) (by decide) (by decide)


/-! ## Traces of the operations -/

theorem calls_of_runs (f : Fn) (s s1 : State) (h : Runs f s s1) : calls s1 = calls s ++ [f] := by
  obtain ⟨t, ht, hno⟩ := h
  have ht0 : t.filterMap (fun ev => match ev with
      | .call f => some f
      | _ => none) = [] := by
    rw [List.filterMap_eq_nil_iff]
    intro ev hev
    have := hno ev hev
    cases ev <;> simp_all [Event.isCall]
  simp [calls, ht, List.filterMap_append, List.filterMap_cons, ht0]

theorem usage_runs (s : State) : Runs .usage s (usage s) :=
  ⟨[.out (usageText ++ "\n")], by simp [usage, println, print, emit], by simp [Event.isCall]⟩

theorem ensureVengoDir_runs (e : Env) (s : State) :
    Runs .ensureVengoDir s (ensureVengoDir e s).state := by
  unfold ensureVengoDir getEnvHome
  cases e.home with
  | none =>
    exact ⟨[_], by simp [Res.state, println, print, emit]; rfl, by simp [Event.isCall]⟩
  | some home =>
    simp only
    split
    · split
      · exact ⟨[_], by simp [Res.state, println, print, emit]; rfl, by simp [Event.isCall]⟩
      · exact ⟨[], by simp [Res.state, emit], by simp⟩
    · exact ⟨[], by simp [Res.state, emit], by simp⟩

theorem isShellFunctionAdded_fs (flt : Faults) (rc : Path) (sig : List Char) (s : State) :
    (isShellFunctionAdded flt rc sig s).2.fs = s.fs := by
  unfold isShellFunctionAdded
  split
  · rfl
  · split
    · rfl
    · rfl
    · split <;> rfl

theorem quiet_refl (s : State) : Quiet s s := ⟨[], by simp, by simp⟩

theorem quiet_print (s s1 : State) (text : String) (h : Quiet s s1) : Quiet s (print text s1) := by
  obtain ⟨t, ht, hno⟩ := h
  refine ⟨t ++ [.out text], by simp [print, emit, ht], ?_⟩
  intro ev hev
  rcases List.mem_append.mp hev with h | h
  · exact hno ev h
  · rw [List.mem_singleton.mp h]
    rfl

theorem quiet_println (s s1 : State) (text : String) (h : Quiet s s1) :
    Quiet s (println text s1) := quiet_print s s1 _ h

theorem quiet_exec (s s1 : State) (argv : List String) (h : Quiet s s1) :
    Quiet s (emit (.exec argv) s1) := by
  obtain ⟨t, ht, hno⟩ := h
  refine ⟨t ++ [.exec argv], by simp [emit, ht], ?_⟩
  intro ev hev
  rcases List.mem_append.mp hev with h | h
  · exact hno ev h
  · rw [List.mem_singleton.mp h]
    rfl

theorem quiet_fs (s s1 : State) (fs : FS) (h : Quiet s s1) : Quiet s { s1 with fs := fs } := h

theorem quiet_trans (s s1 s2 : State) (h1 : Quiet s s1) (h2 : Quiet s1 s2) : Quiet s s2 := by
  obtain ⟨t1, ht1, hno1⟩ := h1
  obtain ⟨t2, ht2, hno2⟩ := h2
  refine ⟨t1 ++ t2, by simp [ht2, ht1], ?_⟩
  intro ev hev
  rcases List.mem_append.mp hev with h | h
  · exact hno1 ev h
  · exact hno2 ev h

theorem runs_of_quiet (f : Fn) (s s1 : State) (h : Quiet (emit (.call f) s) s1) : Runs f s s1 := by
  obtain ⟨t, ht, hno⟩ := h
  exact ⟨t, by simp [ht, emit], hno⟩

theorem isShellFunctionAdded_quiet (flt : Faults) (rc : Path) (sig : List Char) (s : State) :
    Quiet s (isShellFunctionAdded flt rc sig s).2 := by
  unfold isShellFunctionAdded
  split
  · exact quiet_println _ _ _ (quiet_refl s)
  · split
    · exact quiet_refl s
    · exact quiet_println _ _ _ (quiet_refl s)
    · split
      · exact quiet_println _ _ _ (quiet_refl s)
      · exact quiet_refl s

theorem addShellFunction_runs (e : Env) (s : State) :
    Runs .addShellFunction s (addShellFunction e s) := by
  apply runs_of_quiet
  unfold addShellFunction
  cases e.usrHome with
  | none => exact quiet_println _ _ _ (quiet_refl _)
  | some usrHome =>
    simp only
    have hq := isShellFunctionAdded_quiet e.faults (rcFileOf e usrHome) functionSignature
      (emit (.call .addShellFunction) s)
    generalize isShellFunctionAdded e.faults (rcFileOf e usrHome) functionSignature
      (emit (.call .addShellFunction) s) = r at hq
    obtain ⟨b, s1⟩ := r
    cases b with
    | true => exact hq
    | false =>
      simp only
      split
      · exact quiet_println _ _ _ hq
      · split
        · exact quiet_println _ _ _ (quiet_fs _ _ _ hq)
        · exact quiet_println _ _ _ (quiet_println _ _ _ (quiet_fs _ _ _ hq))

theorem checkIfEnvExists_quiet (e : Env) (name : String) (s : State) :
    Quiet s (checkIfEnvExists e name s).state := by
  unfold checkIfEnvExists getEnvHome
  cases e.home with
  | none => exact quiet_println _ _ _ (quiet_refl s)
  | some home =>
    simp only
    split <;> exact quiet_refl s

theorem createEnv_runs (e : Env) (name : String) (s : State) :
    Runs (.createEnv name) s (createEnv e name s).state := by
  apply runs_of_quiet
  unfold createEnv getEnvHome
  cases e.home with
  | none => exact quiet_println _ _ _ (quiet_refl _)
  | some home =>
    simp only
    have hc := checkIfEnvExists_quiet e name (emit (.call (.createEnv name)) s)
    generalize checkIfEnvExists e name (emit (.call (.createEnv name)) s) = r at hc
    cases r with
    | exit c s2 => exact hc
    | ret b s2 =>
      cases b with
      | true => exact quiet_println _ _ _ hc
      | false =>
        simp only
        split
        · exact quiet_println _ _ _ (quiet_print _ _ _ (quiet_fs _ _ _ (quiet_exec _ _ _ hc)))
        · exact quiet_print _ _ _ (quiet_print _ _ _ (quiet_fs _ _ _ (quiet_exec _ _ _ hc)))

theorem activateEnv_runs (e : Env) (name : String) (s : State) :
    Runs (.activateEnv name) s (activateEnv e name s).state := by
  apply runs_of_quiet
  unfold activateEnv
  cases e.usrHome with
  | none => exact quiet_println _ _ _ (quiet_refl _)
  | some usrHome =>
    simp only
    have hq := isShellFunctionAdded_quiet e.faults (rcFileOf e usrHome) functionSignature
      (emit (.call (.activateEnv name)) s)
    generalize isShellFunctionAdded e.faults (rcFileOf e usrHome) functionSignature
      (emit (.call (.activateEnv name)) s) = r at hq
    obtain ⟨b, s1⟩ := r
    cases b with
    | false => exact quiet_println _ _ _ hq
    | true =>
      simp only
      have hc := checkIfEnvExists_quiet e name s1
      generalize checkIfEnvExists e name s1 = r at hc
      cases r with
      | exit c s2 => exact quiet_trans _ _ _ hq hc
      | ret b s2 =>
        cases b with
        | false => exact quiet_println _ _ _ (quiet_trans _ _ _ hq hc)
        | true => exact quiet_trans _ _ _ hq hc

theorem quiet_foldl_println (s s1 : State) (l : List DirEntry) (h : Quiet s s1) :
    Quiet s (l.foldl (fun s env => if env.isDir then println (" - " ++ env.name) s else s) s1) := by
  rw [foldl_println]
  apply quiet_trans s s1 _ h
  refine ⟨_, rfl, ?_⟩
  intro ev hev
  obtain ⟨d, _, hd⟩ := List.mem_map.mp hev
  rw [← hd]
  rfl

theorem listEnvs_runs (e : Env) (s : State) : Runs .listEnvs s (listEnvs e s).state := by
  apply runs_of_quiet
  unfold listEnvs getEnvHome
  cases e.home with
  | none => exact quiet_println _ _ _ (quiet_refl _)
  | some home =>
    simp only
    split
    · exact quiet_println _ _ _ (quiet_refl _)
    · split
      · exact quiet_println _ _ _ (quiet_refl _)
      · exact quiet_foldl_println _ _ _ (quiet_println _ _ _ (quiet_refl _))

theorem deleteEnv_runs (e : Env) (name : String) (s : State) :
    Runs (.deleteEnv name) s (deleteEnv e name s).state := by
  apply runs_of_quiet
  unfold deleteEnv getEnvHome
  cases e.home with
  | none => exact quiet_println _ _ _ (quiet_refl _)
  | some home =>
    simp only
    have hc := checkIfEnvExists_quiet e name (emit (.call (.deleteEnv name)) s)
    generalize checkIfEnvExists e name (emit (.call (.deleteEnv name)) s) = r at hc
    cases r with
    | exit c s2 => exact hc
    | ret b s2 =>
      cases b with
      | false => exact quiet_println _ _ _ hc
      | true =>
        simp only
        split
        · exact quiet_println _ _ _ (quiet_print _ _ _ hc)
        · split
          · exact quiet_println _ _ _ (quiet_fs _ _ _ (quiet_print _ _ _ hc))
          · exact quiet_print _ _ _ (quiet_fs _ _ _ (quiet_print _ _ _ hc))

/-! ## The dispatcher -/

theorem calls_println (text : String) (s : State) : calls (println text s) = calls s := by
  simp [calls, println, print, emit, List.filterMap_append]

theorem calls_after_ensure (e : Env) (s s1 : State) (hens : ensureVengoDir e s = .ret () s1) :
    calls (addShellFunction e s1) = calls s ++ [.ensureVengoDir, .addShellFunction] := by
  have h1 := calls_of_runs _ _ _ (ensureVengoDir_runs e s)
  rw [hens] at h1
  have h2 := calls_of_runs _ _ _ (addShellFunction_runs e s1)
  simp only [Res.state] at h1
  rw [h2, h1]
  simp

theorem main_create (e : Env) (prog : String) (rest : List String) (s s1 : State)
    (hens : ensureVengoDir e s = .ret () s1) :
    main e (prog :: "create" :: rest) s =
      match rest with
      | [name] => createEnv e name (addShellFunction e s1)
      | _ => .ret () (println "Usage: vengo create <env-name>" (addShellFunction e s1)) := by
  unfold main
  match rest with
  | [] => simp [hens]
  | [name] => simp [hens]
  | _ :: _ :: _ => simp [hens]

theorem main_activate (e : Env) (prog : String) (rest : List String) (s s1 : State)
    (hens : ensureVengoDir e s = .ret () s1) :
    main e (prog :: "activate" :: rest) s =
      match rest with
      | [name] => activateEnv e name (addShellFunction e s1)
      | _ => .ret () (println "Usage: vengo activate <env-name>" (addShellFunction e s1)) := by
  unfold main
  match rest with
  | [] => simp [hens]
  | [name] => simp [hens]
  | _ :: _ :: _ => simp [hens]

theorem main_delete (e : Env) (prog : String) (rest : List String) (s s1 : State)
    (hens : ensureVengoDir e s = .ret () s1) :
    main e (prog :: "delete" :: rest) s =
      match rest with
      | [name] => deleteEnv e name (addShellFunction e s1)
      | _ => .ret () (println "Usage: vengo delete <env-name>" (addShellFunction e s1)) := by
  unfold main
  match rest with
  | [] => simp [hens]
  | [name] => simp [hens]
  | _ :: _ :: _ => simp [hens]

/-- C7, as stated, fails when the home directory cannot be determined: the
process exits inside `ensureVengoDir`, so with exactly one argument after
`create` the operation `createEnv` is not invoked, and with none no usage line
is printed. -/
theorem main_exit_before_dispatch :
    main homelessEnv ["vengo", "create", "e"] noRootState =
      .exit 1 ⟨noRootState.fs, [.call .ensureVengoDir,
        .out "❌ Error fetching home directory: $HOME is not defined\n"]⟩ ∧
    main homelessEnv ["vengo", "create"] noRootState =
      .exit 1 ⟨noRootState.fs, [.call .ensureVengoDir,
        .out "❌ Error fetching home directory: $HOME is not defined\n"]⟩ := by
  decide

/-- C7, amended: when `ensureVengoDir` returns (the process is not terminated
at startup), for each of the subcommands `create`, `activate` and `delete`:
with exactly one following argument `main` is that operation on that argument,
run after `addShellFunction`; with any other number of arguments `main` prints
the usage line of the subcommand and returns.  The operation is entered once
in the first case and not at all in the second. -/
theorem main_arity (e : Env) (prog : String) (rest : List String) (s s1 : State)
    (hens : ensureVengoDir e s = .ret () s1) :
    (main e (prog :: "create" :: rest) s =
        (match rest with
        | [name] => createEnv e name (addShellFunction e s1)
        | _ => .ret () (println "Usage: vengo create <env-name>" (addShellFunction e s1))) ∧
      calls (main e (prog :: "create" :: rest) s).state =
        calls s ++ [.ensureVengoDir, .addShellFunction] ++
        (match rest with
        | [name] => [Fn.createEnv name]
        | _ => [])) ∧
    (main e (prog :: "activate" :: rest) s =
        (match rest with
        | [name] => activateEnv e name (addShellFunction e s1)
        | _ => .ret () (println "Usage: vengo activate <env-name>" (addShellFunction e s1))) ∧
      calls (main e (prog :: "activate" :: rest) s).state =
        calls s ++ [.ensureVengoDir, .addShellFunction] ++
        (match rest with
        | [name] => [Fn.activateEnv name]
        | _ => [])) ∧
    (main e (prog :: "delete" :: rest) s =
        (match rest with
        | [name] => deleteEnv e name (addShellFunction e s1)
        | _ => .ret () (println "Usage: vengo delete <env-name>" (addShellFunction e s1))) ∧
      calls (main e (prog :: "delete" :: rest) s).state =
        calls s ++ [.ensureVengoDir, .addShellFunction] ++
        (match rest with
        | [name] => [Fn.deleteEnv name]
        | _ => [])) := by
  have hc := calls_after_ensure e s s1 hens
  refine ⟨⟨main_create e prog rest s s1 hens, ?_⟩, ⟨main_activate e prog rest s s1 hens, ?_⟩,
    ⟨main_delete e prog rest s s1 hens, ?_⟩⟩
  · rw [main_create e prog rest s s1 hens]
    match rest with
    | [] => simp [Res.state, calls_println, hc]
    | [name] => simp only [calls_of_runs _ _ _ (createEnv_runs e name _), hc]
    | _ :: _ :: _ => simp [Res.state, calls_println, hc]
  · rw [main_activate e prog rest s s1 hens]
    match rest with
    | [] => simp [Res.state, calls_println, hc]
    | [name] => simp only [calls_of_runs _ _ _ (activateEnv_runs e name _), hc]
    | _ :: _ :: _ => simp [Res.state, calls_println, hc]
  · rw [main_delete e prog rest s s1 hens]
    match rest with
    | [] => simp [Res.state, calls_println, hc]
    | [name] => simp only [calls_of_runs _ _ _ (deleteEnv_runs e name _), hc]
    | _ :: _ :: _ => simp [Res.state, calls_println, hc]

theorem main_arity_witness :
    ensureVengoDir (sampleEnv "") sampleState =
      .ret () ⟨sampleState.fs, [.call .ensureVengoDir]⟩ ∧
    main (sampleEnv "") ("vengo" :: "create" :: ["e", "f"]) sampleState =
      .ret () (println "Usage: vengo create <env-name>"
        (addShellFunction (sampleEnv "") ⟨sampleState.fs, [.call .ensureVengoDir]⟩)) :=
  ⟨by decide, (main_arity (sampleEnv "") "vengo" ["e", "f"] sampleState
    ⟨sampleState.fs, [.call .ensureVengoDir]⟩ (by decide)).1.1⟩

theorem routed_of_runs (f : Fn) (s s1 : State) (h : Runs f s s1)
    (h1 : f ≠ .ensureVengoDir) (h2 : f ≠ .addShellFunction) :
    ∃ t, s1.trace = s.trace ++ t ∧
      ∀ ev ∈ t, ev ≠ .call .ensureVengoDir ∧ ev ≠ .call .addShellFunction := by
  obtain ⟨t, ht, hno⟩ := h
  refine ⟨_, ht, ?_⟩
  intro ev hev
  rcases List.mem_cons.mp hev with h | h
  · subst h
    exact ⟨fun h => h1 (Event.call.inj h), fun h => h2 (Event.call.inj h)⟩
  · have := hno ev h
    constructor <;> (intro hc; rw [hc] at this; simp [Event.isCall] at this)

theorem routed_of_quiet (s s1 : State) (h : Quiet s s1) :
    ∃ t, s1.trace = s.trace ++ t ∧
      ∀ ev ∈ t, ev ≠ .call .ensureVengoDir ∧ ev ≠ .call .addShellFunction := by
  obtain ⟨t, ht, hno⟩ := h
  refine ⟨_, ht, ?_⟩
  intro ev hev
  have := hno ev hev
  constructor <;> (intro hc; rw [hc] at this; simp [Event.isCall] at this)

/-- C8, as stated, fails: without a subcommand `main` prints the usage text and
returns before either ensure step (the registry root is still absent
afterwards), and when the home directory cannot be determined the process
exits inside `ensureVengoDir`, so `addShellFunction` is never performed. -/
theorem main_skips_ensure :
    (calls (main (sampleEnv "") ["vengo"] noRootState).state = [.usage] ∧
      (main (sampleEnv "") ["vengo"] noRootState).state.fs = noRootState.fs ∧
      stat sampleFaults noRootState.fs ["home", "u", ".vengo"] = .err .ENOENT) ∧
    (main homelessEnv ["vengo", "list"] noRootState =
        .exit 1 ⟨noRootState.fs, [.call .ensureVengoDir,
          .out "❌ Error fetching home directory: $HOME is not defined\n"]⟩ ∧
      calls (main homelessEnv ["vengo", "list"] noRootState).state = [.ensureVengoDir]) := by
  decide

/-- C8, amended: on every invocation with a subcommand (at least two elements
in the argument vector) `main` first performs `ensureVengoDir`, once.  If that
step terminates the process, nothing else is performed.  Otherwise `main`
performs `addShellFunction`, once, and everything the routing does and prints,
usage output included, comes after both and contains no further entry into
either of them. -/
theorem main_ensure_once (e : Env) (args : List String) (s : State) (h : 2 ≤ args.length) :
    (∀ c s1, ensureVengoDir e s = .exit c s1 →
      main e args s = .exit c s1 ∧ calls s1 = calls s ++ [.ensureVengoDir]) ∧
    (∀ s1, ensureVengoDir e s = .ret () s1 →
      calls (addShellFunction e s1) = calls s ++ [.ensureVengoDir, .addShellFunction] ∧
      ∃ t, (main e args s).state.trace = (addShellFunction e s1).trace ++ t ∧
        ∀ ev ∈ t, ev ≠ .call .ensureVengoDir ∧ ev ≠ .call .addShellFunction) := by
  have hlen : ¬ args.length < 2 := by omega
  constructor
  · intro c s1 hens
    have h1 := calls_of_runs _ _ _ (ensureVengoDir_runs e s)
    rw [hens] at h1
    refine ⟨?_, h1⟩
    unfold main
    simp [hlen, hens]
  · intro s1 hens
    refine ⟨calls_after_ensure e s s1 hens, ?_⟩
    unfold main
    simp only [hlen, if_false, hens]
    split
    · split
      · exact routed_of_quiet _ _ (quiet_println _ _ _ (quiet_refl _))
      · exact routed_of_runs _ _ _ (createEnv_runs e _ _) (by simp) (by simp)
    · split
      · exact routed_of_runs _ _ _ (listEnvs_runs e _) (by simp) (by simp)
      · split
        · split
          · exact routed_of_quiet _ _ (quiet_println _ _ _ (quiet_refl _))
          · exact routed_of_runs _ _ _ (activateEnv_runs e _ _) (by simp) (by simp)
        · split
          · split
            · exact routed_of_quiet _ _ (quiet_println _ _ _ (quiet_refl _))
            · exact routed_of_runs _ _ _ (deleteEnv_runs e _ _) (by simp) (by simp)
          · exact routed_of_runs _ _ _ (usage_runs _) (by simp) (by simp)

theorem main_ensure_once_witness :
    2 ≤ ["vengo", "frobnicate"].length ∧
    ((∀ c s1, ensureVengoDir (sampleEnv "") noRootState = .exit c s1 →
      main (sampleEnv "") ["vengo", "frobnicate"] noRootState = .exit c s1 ∧
        calls s1 = calls noRootState ++ [.ensureVengoDir]) ∧
    (∀ s1, ensureVengoDir (sampleEnv "") noRootState = .ret () s1 →
      calls (addShellFunction (sampleEnv "") s1) =
        calls noRootState ++ [.ensureVengoDir, .addShellFunction] ∧
      ∃ t, (main (sampleEnv "") ["vengo", "frobnicate"] noRootState).state.trace =
          (addShellFunction (sampleEnv "") s1).trace ++ t ∧
        ∀ ev ∈ t, ev ≠ .call .ensureVengoDir ∧ ev ≠ .call .addShellFunction)) :=
  ⟨by decide, main_ensure_once (sampleEnv "") ["vengo", "frobnicate"] noRootState (by decide)⟩


/-! ## Registry: deletion -/

theorem isAncestorOrSelf_iff (p q : Path) : isAncestorOrSelf p q = true ↔ ∃ r, q = p ++ r := by
  induction p generalizing q with
  | nil => simp [isAncestorOrSelf]
  | cons a p ih =>
    cases q with
    | nil => simp [isAncestorOrSelf]
    | cons b q =>
      unfold isAncestorOrSelf
      by_cases hab : a = b
      · simp [hab, ih]
      · simp only [hab, if_false, Bool.false_eq_true, false_iff]
        rintro ⟨r, hr⟩
        injection hr with h1 _
        exact hab h1.symm

theorem isAncestorOrSelf_append (p r : Path) : isAncestorOrSelf p (p ++ r) = true :=
  (isAncestorOrSelf_iff _ _).mpr ⟨r, rfl⟩

theorem isAncestorOrSelf_shorter (p : Path) (c : String) (cs : List String) (r : String) :
    isAncestorOrSelf (p ++ c :: r :: cs) (p ++ [c]) = false := by
  cases h : isAncestorOrSelf (p ++ c :: r :: cs) (p ++ [c]) with
  | false => rfl
  | true =>
    obtain ⟨x, hx⟩ := (isAncestorOrSelf_iff _ _).mp h
    have := congrArg List.length hx
    simp at this

theorem lookup_filter (fs : FS) (p q : Path) :
    lookup (fs.filter (fun en => !isAncestorOrSelf p en.1)) q =
      if isAncestorOrSelf p q then none else lookup fs q := by
  induction fs with
  | nil => simp [lookup]
  | cons x rest ih =>
    obtain ⟨q1, k1⟩ := x
    rw [List.filter_cons]
    by_cases hq : q1 = q
    · subst hq
      cases ha : isAncestorOrSelf p q1 with
      | true => simp [ha, ih]
      | false => simp [ha, lookup]
    · cases ha : isAncestorOrSelf p q1 with
      | true => simp [ha, ih, lookup, hq]
      | false => simp [ha, lookup, hq, ih]

theorem statFrom_removed (fs : FS) (cur : Path) (c : String) (cs ext : List String) (k : Kind)
    (h : statFrom fs cur .dir (c :: cs) = .ok k) :
    statFrom (fs.filter (fun en => !isAncestorOrSelf (cur ++ c :: cs) en.1)) cur .dir
      (c :: cs ++ ext) = .err .ENOENT := by
  induction cs generalizing cur c with
  | nil =>
    simp only [List.cons_append, List.nil_append, statFrom, lookup_filter]
    have : isAncestorOrSelf (cur ++ [c]) (cur ++ [c]) = true := by
      simpa using isAncestorOrSelf_append (cur ++ [c]) []
    simp [this]
  | cons r cs ih =>
    simp only [statFrom] at h
    cases hl : lookup fs (cur ++ [c]) with
    | none => simp [hl] at h
    | some k1 =>
      simp only [hl] at h
      cases k1 with
      | file content => simp [statFrom] at h
      | dir =>
        have h2 := ih (cur ++ [c]) r h
        simp only [List.append_assoc, List.singleton_append] at h2
        have hl2 : lookup (fs.filter (fun en => !isAncestorOrSelf (cur ++ c :: r :: cs) en.1))
            (cur ++ [c]) = some Kind.dir := by
          rw [lookup_filter, isAncestorOrSelf_shorter]
          simpa using hl
        rw [List.cons_append, statFrom, hl2]
        simpa using h2

theorem resolve_removed (fs : FS) (p ext : Path) (k : Kind) (h : resolve fs p = .ok k)
    (hne : p ≠ []) :
    resolve (fs.filter (fun en => !isAncestorOrSelf p en.1)) (p ++ ext) = .err .ENOENT := by
  cases p with
  | nil => exact absurd rfl hne
  | cons c cs => simpa using statFrom_removed fs [] c cs ext k h

theorem lookup_of_statFrom (fs : FS) (cur : Path) (c : String) (cs : List String) (k : Kind)
    (h : statFrom fs cur .dir (c :: cs) = .ok k) : lookup fs (cur ++ c :: cs) = some k := by
  induction cs generalizing cur c with
  | nil =>
    simp only [statFrom] at h
    cases hl : lookup fs (cur ++ [c]) with
    | none => simp [hl] at h
    | some k1 =>
      simp only [hl, statFrom] at h
      injection h with h
      rw [h]
  | cons r cs ih =>
    simp only [statFrom] at h
    cases hl : lookup fs (cur ++ [c]) with
    | none => simp [hl] at h
    | some k1 =>
      simp only [hl] at h
      cases k1 with
      | file content => simp [statFrom] at h
      | dir =>
        have := ih (cur ++ [c]) r h
        simpa using this

theorem lookup_of_resolve (fs : FS) (p : Path) (k : Kind) (h : resolve fs p = .ok k)
    (hne : p ≠ []) : lookup fs p = some k := by
  cases p with
  | nil => exact absurd rfl hne
  | cons c cs => simpa using lookup_of_statFrom fs [] c cs k h

theorem removeAll_existing (flt : Faults) (fs : FS) (p : Path) (k : Kind)
    (h : resolve fs p = .ok k) (hne : p ≠ []) (hrm : flt.remove fs p = none) :
    removeAll flt fs p = (fs.filter (fun en => !isAncestorOrSelf p en.1), none) := by
  simp [removeAll, h, hne, hrm]

theorem removeAll_failing (flt : Faults) (fs left : FS) (p : Path) (err : Errno)
    (hrm : flt.remove fs p = some (left, err)) : removeAll flt fs p = (left, some err) := by
  simp [removeAll, hrm]

/-! ## Reading the confirmation -/

theorem isSpace_newline_or (c : Char) (h : isSpace c = false) : c ≠ '\n' ∧ c ≠ '\r' := by
  constructor <;> (rintro rfl; exact absurd h (by decide))

theorem skipSpace_spaces (pre rest : List Char)
    (hpre : ∀ c ∈ pre, isSpace c = true ∧ c ≠ '\n') :
    skipSpace (pre ++ rest) = skipSpace rest := by
  induction pre with
  | nil => rfl
  | cons c pre ih =>
    have hc := hpre c (List.mem_cons_self _ _)
    have ih1 := ih (fun x hx => hpre x (List.mem_cons_of_mem _ hx))
    rw [List.cons_append, skipSpace]
    split
    · exact ih1
    · simp [hc.1, hc.2, ih1]

theorem skipSpace_word (a : Char) (rest : List Char) (ha : isSpace a = false) :
    skipSpace (a :: rest) = some (a :: rest) := by
  have h := isSpace_newline_or a ha
  simp [skipSpace, h.1, h.2, ha]

theorem takeWhile_word (w rest : List Char) (hw : ∀ c ∈ w, isSpace c = false)
    (hrest : rest = [] ∨ ∃ c r, rest = c :: r ∧ isSpace c = true) :
    (w ++ rest).takeWhile (fun c => !isSpace c) = w := by
  induction w with
  | nil =>
    rcases hrest with h | ⟨c, r, h, hc⟩
    · simp [h]
    · simp [h, hc]
  | cons a w ih =>
    have ha := hw a (List.mem_cons_self _ _)
    simp [List.takeWhile_cons, ha, ih (fun x hx => hw x (List.mem_cons_of_mem _ hx))]

theorem scanln_word (pre w rest : List Char) (init : String)
    (hpre : ∀ c ∈ pre, isSpace c = true ∧ c ≠ '\n') (hne : w ≠ [])
    (hw : ∀ c ∈ w, isSpace c = false)
    (hrest : rest = [] ∨ ∃ c r, rest = c :: r ∧ isSpace c = true) :
    scanln (pre ++ w ++ rest) init = String.mk w := by
  cases w with
  | nil => exact absurd rfl hne
  | cons a w =>
    have ha := hw a (List.mem_cons_self _ _)
    have h1 : skipSpace (pre ++ (a :: w) ++ rest) = some (a :: (w ++ rest)) := by
      rw [List.append_assoc, skipSpace_spaces _ _ hpre]
      exact skipSpace_word a _ ha
    have h2 := takeWhile_word (a :: w) rest hw hrest
    simp only [List.cons_append] at h2
    simp only [scanln, h1, h2]

theorem scanln_nothing (pre rest : List Char) (init : String)
    (hpre : ∀ c ∈ pre, isSpace c = true ∧ c ≠ '\n') :
    scanln pre init = init ∧ scanln (pre ++ '\n' :: rest) init = init := by
  constructor
  · have h := skipSpace_spaces pre [] hpre
    rw [List.append_nil] at h
    simp [scanln, h, skipSpace]
  · have h := skipSpace_spaces pre ('\n' :: rest) hpre
    have h2 : skipSpace ('\n' :: rest) = none := by simp [skipSpace]
    simp [scanln, h, h2]

/-! ## Deletion -/

theorem deleteEnv_asked (e : Env) (home : Path) (name : String) (s : State) (k : Kind)
    (hh : e.home = some home)
    (hex : stat e.faults s.fs (filepathJoin (home ++ [".vengo"]) name) = .ok k) :
    deleteEnv e name s =
      if scanln e.stdin "" ≠ "y" ∧ scanln e.stdin "" ≠ "Y" then
        .ret () ⟨s.fs, s.trace ++ [.call (.deleteEnv name),
          .out ("⚠️ Are you sure you want to delete '" ++ name ++ "'? [y/N]: "),
          .out "❌ Aborted deletion.\n"]⟩
      else
        match removeAll e.faults s.fs (filepathJoin (home ++ [".vengo"]) name) with
        | (fs, some err) =>
          .ret () ⟨fs, s.trace ++ [.call (.deleteEnv name),
            .out ("⚠️ Are you sure you want to delete '" ++ name ++ "'? [y/N]: "),
            .out ("❌ Failed to delete environment: " ++
              pathError "unlinkat" (filepathJoin (home ++ [".vengo"]) name) err ++ "\n")]⟩
        | (fs, none) =>
          .ret () ⟨fs, s.trace ++ [.call (.deleteEnv name),
            .out ("⚠️ Are you sure you want to delete '" ++ name ++ "'? [y/N]: "),
            .out ("🗑  Deleted environment '" ++ name ++ "'.\n")]⟩ := by
  have hc := checkIfEnvExists_eq e home name (emit (.call (.deleteEnv name)) s) hh
  have hfs : (emit (.call (.deleteEnv name)) s).fs = s.fs := rfl
  rw [hfs, hex] at hc
  unfold deleteEnv
  simp only [getEnvHome, hh, hc, isNotExist, Bool.not_false, filepathJoin_envDir]
  split
  · simp [println, print, emit]
  · have hfs2 : (print ("⚠️ Are you sure you want to delete '" ++ name ++ "'? [y/N]: ")
        (emit (.call (.deleteEnv name)) s)).fs = s.fs := rfl
    rw [hfs2]
    split <;> simp_all [println, print, emit]

/-- C1, as stated, fails: on the input line `y n`, which has extra text after
the `y`, `fmt.Scanln` stores the word `y`, so `deleteEnv` does not abort and
removes the subtree of the environment `e`. -/
theorem deleteEnv_extra_text_deletes :
    scanln "y n\n".data "" = "y" ∧
    deleteEnv (sampleEnv "y n\n") "e" sampleState =
      .ret () ⟨sampleFS "# profile\n" [(["home", "u", ".vengo", "notes.txt"], .file [])],
        [.call (.deleteEnv "e"), .out "⚠️ Are you sure you want to delete 'e'? [y/N]: ",
         .out "🗑  Deleted environment 'e'.\n"]⟩ ∧
    stat sampleFaults (deleteEnv (sampleEnv "y n\n") "e" sampleState).state.fs
      ["home", "u", ".vengo", "e"] = .err .ENOENT := by
  decide

/-- C1, amended: for a name on whose joined path `os.Stat` succeeds,
`deleteEnv` decides on the word `confirm` that `fmt.Scanln` stores: the first
word of the input, delimited by space characters, after leading spaces other
than a newline, whatever follows it on the line; the empty word when a newline
or the end of input comes first.  If the word is neither `y` nor `Y`, the
filesystem is unchanged and the abort message is printed.  If it is `y` or
`Y`, `os.RemoveAll` is called on the path: when that call fails, what it left
behind stays and the failure is reported; when it does not fail (and the path
is not `/`), the entry at the path and everything below it is removed, every
other entry is kept, and the deletion is reported.  So, for a removal that
does not fail, the entry is gone afterwards exactly when the word is `y` or
`Y`. -/
theorem deleteEnv_confirm (e : Env) (home : Path) (name : String) (s : State) (k : Kind)
    (hh : e.home = some home)
    (hex : stat e.faults s.fs (filepathJoin (home ++ [".vengo"]) name) = .ok k) :
    let path := filepathJoin (home ++ [".vengo"]) name
    let confirm := scanln e.stdin ""
    let asked : List Event := s.trace ++ [.call (.deleteEnv name),
      .out ("⚠️ Are you sure you want to delete '" ++ name ++ "'? [y/N]: ")]
    let removed : FS := s.fs.filter (fun en => !isAncestorOrSelf path en.1)
    (∀ pre w rest, (∀ c ∈ pre, isSpace c = true ∧ c ≠ '\n') → w ≠ [] →
      (∀ c ∈ w, isSpace c = false) → (rest = [] ∨ ∃ c r, rest = c :: r ∧ isSpace c = true) →
      e.stdin = pre ++ w ++ rest → confirm = String.mk w) ∧
    (∀ pre rest, (∀ c ∈ pre, isSpace c = true ∧ c ≠ '\n') →
      (e.stdin = pre ∨ e.stdin = pre ++ '\n' :: rest) → confirm = "") ∧
    (¬ (confirm = "y" ∨ confirm = "Y") →
      deleteEnv e name s = .ret () ⟨s.fs, asked ++ [.out "❌ Aborted deletion.\n"]⟩) ∧
    ((confirm = "y" ∨ confirm = "Y") → ∀ left err, e.faults.remove s.fs path = some (left, err) →
      deleteEnv e name s = .ret () ⟨left, asked ++
        [.out ("❌ Failed to delete environment: " ++ pathError "unlinkat" path err ++ "\n")]⟩) ∧
    ((confirm = "y" ∨ confirm = "Y") → e.faults.remove s.fs path = none → path ≠ [] →
      deleteEnv e name s =
        .ret () ⟨removed, asked ++ [.out ("🗑  Deleted environment '" ++ name ++ "'.\n")]⟩) ∧
    (∀ q, lookup removed q = if isAncestorOrSelf path q then none else lookup s.fs q) ∧
    (e.faults.remove s.fs path = none → path ≠ [] →
      (lookup (deleteEnv e name s).state.fs path = none ↔ (confirm = "y" ∨ confirm = "Y"))) := by
  intro path confirm asked removed
  have hd := deleteEnv_asked e home name s k hh hex
  have hres := resolve_of_stat _ _ _ _ hex
  have hyes : (confirm = "y" ∨ confirm = "Y") →
      ¬ (scanln e.stdin "" ≠ "y" ∧ scanln e.stdin "" ≠ "Y") := by
    rintro hc ⟨h1, h2⟩
    rcases hc with hc | hc
    · exact h1 hc
    · exact h2 hc
  have hno : ¬ (confirm = "y" ∨ confirm = "Y") →
      deleteEnv e name s = .ret () ⟨s.fs, asked ++ [.out "❌ Aborted deletion.\n"]⟩ := by
    intro hc
    have : scanln e.stdin "" ≠ "y" ∧ scanln e.stdin "" ≠ "Y" :=
      ⟨fun h => hc (Or.inl h), fun h => hc (Or.inr h)⟩
    rw [hd, if_pos this]
    simp [asked]
  have hok : (confirm = "y" ∨ confirm = "Y") → e.faults.remove s.fs path = none → path ≠ [] →
      deleteEnv e name s =
        .ret () ⟨removed, asked ++ [.out ("🗑  Deleted environment '" ++ name ++ "'.\n")]⟩ := by
    intro hc hrm hne
    rw [hd, if_neg (hyes hc), removeAll_existing _ _ _ k hres hne hrm]
    simp [asked, removed, path]
  refine ⟨?_, ?_, hno, ?_, hok, fun q => lookup_filter s.fs path q, ?_⟩
  · intro pre w rest hpre hne hw hrest hin
    simp only [confirm, hin]
    exact scanln_word pre w rest "" hpre hne hw hrest
  · intro pre rest hpre hin
    have h := scanln_nothing pre rest "" hpre
    rcases hin with hin | hin
    · simp only [confirm, hin, h.1]
    · simp only [confirm, hin, h.2]
  · intro hc left err hrm
    rw [hd, if_neg (hyes hc), removeAll_failing _ _ _ _ _ hrm]
    simp [asked, path]
  · intro hrm hne
    constructor
    · intro hgone
      by_contra hc
      rw [hno hc] at hgone
      simp only [Res.state] at hgone
      rw [lookup_of_resolve _ _ _ hres hne] at hgone
      exact Option.noConfusion hgone
    · intro hc
      rw [hok hc hrm hne]
      simp only [Res.state, removed, lookup_filter]
      simp [isAncestorOrSelf_append path [] |> fun h => by simpa using h]

theorem deleteEnv_confirm_witness :
    deleteEnv (sampleEnv "yes\n") "e" sampleState =
      .ret () ⟨sampleState.fs, [.call (.deleteEnv "e"),
        .out "⚠️ Are you sure you want to delete 'e'? [y/N]: ", .out "❌ Aborted deletion.\n"]⟩ ∧
    deleteEnv (sampleEnv " Y\n") "e" sampleState =
      .ret () ⟨sampleFS "# profile\n" [(["home", "u", ".vengo", "notes.txt"], .file [])],
        [.call (.deleteEnv "e"), .out "⚠️ Are you sure you want to delete 'e'? [y/N]: ",
         .out "🗑  Deleted environment 'e'.\n"]⟩ ∧
    deleteEnv (sampleEnv "y\n") ".." sampleState =
      .ret () ⟨[(["home"], .dir), (["home", "u"], .dir)], [.call (.deleteEnv ".."),
        .out "⚠️ Are you sure you want to delete '..'? [y/N]: ",
        .out "❌ Failed to delete environment: unlinkat /home/u: permission denied\n"]⟩ :=
  ⟨(deleteEnv_confirm (sampleEnv "yes\n") ["home", "u"] "e" sampleState .dir rfl
      (by decide)).2.2.1 (by decide),
    (deleteEnv_confirm (sampleEnv " Y\n") ["home", "u"] "e" sampleState .dir rfl
      (by decide)).2.2.2.2.1 (by decide) (by decide) (by decide),
    (deleteEnv_confirm (sampleEnv "y\n") ["home", "u"] ".." sampleState .dir rfl
      (by decide)).2.2.2.1 (by decide) [(["home"], .dir), (["home", "u"], .dir)] .EACCES
      (by decide)⟩

/-- C10, as stated, fails: after `deleteEnv ""` confirmed with `y` has removed
the registry root, the names `..` and `../.bashrc`, for which
`checkIfEnvExists` was true before, still exist. -/
theorem deleteEnv_empty_name_keeps_outside :
    stat sampleFaults (deleteEnv (sampleEnv "y\n") "" sampleState).state.fs
      ["home", "u", ".vengo"] = .err .ENOENT ∧
    checkIfEnvExists (sampleEnv "y\n") ".." sampleState = .ret true sampleState ∧
    checkIfEnvExists (sampleEnv "y\n") ".." (deleteEnv (sampleEnv "y\n") "" sampleState).state =
      .ret true (deleteEnv (sampleEnv "y\n") "" sampleState).state ∧
    checkIfEnvExists (sampleEnv "y\n") "../.bashrc" sampleState = .ret true sampleState ∧
    checkIfEnvExists (sampleEnv "y\n") "../.bashrc"
        (deleteEnv (sampleEnv "y\n") "" sampleState).state =
      .ret true (deleteEnv (sampleEnv "y\n") "" sampleState).state := by
  decide

/-- C10, amended: the path joined from the registry root and the empty name is
the root itself.  Whenever `os.Stat` succeeds on the root,
`checkIfEnvExists ""` is true and `deleteEnv ""` confirmed with `y` calls
`os.RemoveAll` on the root.  When that call fails, the failure is reported.
When it does not fail, the root is removed with everything below it: no entry
at or below the root is left, and `checkIfEnvExists` is false afterwards for
every name whose joined path lies at or below the root, unless `os.Stat` fails
on that path for a reason outside the filesystem's content.  Names that
resolve outside the registry are not covered. -/
theorem deleteEnv_empty_name_removes_root (e : Env) (home : Path) (s : State) (k : Kind)
    (hh : e.home = some home)
    (hroot : stat e.faults s.fs (home ++ [".vengo"]) = .ok k)
    (hy : scanln e.stdin "" = "y") :
    let root := home ++ [".vengo"]
    let s1 := (deleteEnv e "" s).state
    filepathJoin root "" = root ∧
    checkIfEnvExists e "" s = .ret true s ∧
    (∀ left err, e.faults.remove s.fs root = some (left, err) →
      deleteEnv e "" s = .ret () ⟨left, s.trace ++ [.call (.deleteEnv ""),
        .out "⚠️ Are you sure you want to delete ''? [y/N]: ",
        .out ("❌ Failed to delete environment: " ++ pathError "unlinkat" root err ++ "\n")]⟩) ∧
    (e.faults.remove s.fs root = none →
      deleteEnv e "" s = .ret () ⟨s.fs.filter (fun en => !isAncestorOrSelf root en.1),
        s.trace ++ [.call (.deleteEnv ""),
        .out "⚠️ Are you sure you want to delete ''? [y/N]: ",
        .out "🗑  Deleted environment ''.\n"]⟩ ∧
      (∀ q, isAncestorOrSelf root q = true → lookup s1.fs q = none) ∧
      (∀ name, isAncestorOrSelf root (filepathJoin root name) = true →
        e.faults.stat s1.fs (filepathJoin root name) = none →
        checkIfEnvExists e name s1 = .ret false s1)) := by
  intro root s1
  have hj : filepathJoin root "" = root := filepathJoin_empty root
  have hex : stat e.faults s.fs (filepathJoin (home ++ [".vengo"]) "") = .ok k := by
    rw [filepathJoin_empty]
    exact hroot
  have hres := resolve_of_stat _ _ _ _ hroot
  have hne : root ≠ [] := by simp [root]
  have hd := deleteEnv_asked e home "" s k hh hex
  rw [if_neg (fun h => h.1 hy), filepathJoin_empty] at hd
  refine ⟨hj, ?_, ?_, ?_⟩
  · rw [checkIfEnvExists_eq e home "" s hh, hex]
    rfl
  · intro left err hrm
    rw [hd, removeAll_failing _ _ _ _ _ hrm]
    rfl
  · intro hrm
    have hdel : deleteEnv e "" s = .ret () ⟨s.fs.filter (fun en => !isAncestorOrSelf root en.1),
        s.trace ++ [.call (.deleteEnv ""),
        .out "⚠️ Are you sure you want to delete ''? [y/N]: ",
        .out "🗑  Deleted environment ''.\n"]⟩ := by
      rw [hd, removeAll_existing _ _ _ k hres hne hrm]
      rfl
    have hs1 : s1.fs = s.fs.filter (fun en => !isAncestorOrSelf root en.1) := by
      simp only [s1, hdel, Res.state]
    refine ⟨hdel, ?_, ?_⟩
    · intro q hq
      rw [hs1, lookup_filter, hq]
      rfl
    · intro name hq hstat
      obtain ⟨r, hr⟩ := (isAncestorOrSelf_iff _ _).mp hq
      rw [checkIfEnvExists_eq e home name s1 hh]
      show Res.ret (!isNotExist (stat e.faults s1.fs (filepathJoin root name))) s1 = _
      rw [stat_of_noFault _ _ _ hstat, hs1, hr, resolve_removed s.fs root r k hres hne]
      rfl

theorem deleteEnv_empty_name_removes_root_witness :
    stat sampleFaults (main (sampleEnv "y\n") ["vengo", "delete", ""] sampleState).state.fs
      ["home", "u", ".vengo"] = .err .ENOENT ∧
    (∀ name, isAncestorOrSelf ["home", "u", ".vengo"]
        (filepathJoin ["home", "u", ".vengo"] name) = true →
      sampleFaults.stat (deleteEnv (sampleEnv "y\n") "" sampleState).state.fs
        (filepathJoin ["home", "u", ".vengo"] name) = none →
      checkIfEnvExists (sampleEnv "y\n") name (deleteEnv (sampleEnv "y\n") "" sampleState).state =
        .ret false (deleteEnv (sampleEnv "y\n") "" sampleState).state) :=
  ⟨by decide, ((deleteEnv_empty_name_removes_root (sampleEnv "y\n") ["home", "u"] sampleState .dir
    rfl (by decide) (by decide)).2.2.2 (by decide)).2.2⟩

/-! ## Activation -/

theorem isShellFunctionAdded_found (flt : Faults) (rc : Path) (sig c : List Char) (s : State)
    (hfile : resolve s.fs rc = .ok (.file c))
    (hopen : flt.openRead s.fs rc = none) (hread : flt.read s.fs rc = none)
    (hmark : scanFor sig (rawLines [] c) = .found) :
    isShellFunctionAdded flt rc sig s = (true, s) := by
  simp [isShellFunctionAdded, openRead, hopen, hfile, readAll, hread, hmark]

theorem ensureVengoDir_existing (e : Env) (home : Path) (s : State) (k : Kind)
    (hh : e.home = some home) (hroot : stat e.faults s.fs (home ++ [".vengo"]) = .ok k) :
    ensureVengoDir e s = .ret () (emit (.call .ensureVengoDir) s) := by
  have hfs : (emit (.call .ensureVengoDir) s).fs = s.fs := rfl
  unfold ensureVengoDir
  simp only [getEnvHome, hh, filepathJoin_envDir, hfs, hroot, isNotExist]
  simp

theorem addShellFunction_installed (e : Env) (u : Path) (s : State) (c : List Char)
    (hu : e.usrHome = some u)
    (hfile : resolve s.fs (rcFileOf e u) = .ok (.file c))
    (hopen : e.faults.openRead s.fs (rcFileOf e u) = none)
    (hread : e.faults.read s.fs (rcFileOf e u) = none)
    (hmark : scanFor functionSignature (rawLines [] c) = .found) :
    addShellFunction e s = emit (.call .addShellFunction) s := by
  have h1 := isShellFunctionAdded_found e.faults (rcFileOf e u) functionSignature c
    (emit (.call .addShellFunction) s) hfile hopen hread hmark
  unfold addShellFunction
  simp only [hu, h1]

theorem checkIfEnvExists_fs (e : Env) (name : String) (s : State) :
    (checkIfEnvExists e name s).state.fs = s.fs := by
  unfold checkIfEnvExists getEnvHome
  cases e.home with
  | none => rfl
  | some home =>
    simp only
    split <;> rfl

theorem activateEnv_fs (e : Env) (name : String) (s : State) :
    (activateEnv e name s).state.fs = s.fs := by
  unfold activateEnv
  cases e.usrHome with
  | none => rfl
  | some u =>
    simp only
    have hq := isShellFunctionAdded_fs e.faults (rcFileOf e u) functionSignature
      (emit (.call (.activateEnv name)) s)
    generalize isShellFunctionAdded e.faults (rcFileOf e u) functionSignature
      (emit (.call (.activateEnv name)) s) = r at hq
    obtain ⟨b, s1⟩ := r
    cases b with
    | false => exact hq
    | true =>
      simp only
      have hc := checkIfEnvExists_fs e name s1
      generalize checkIfEnvExists e name s1 = r at hc
      cases r with
      | exit c s2 => exact hc.trans hq
      | ret b s2 =>
        cases b with
        | false => exact hc.trans hq
        | true => exact hc.trans hq

theorem activateEnv_missing (e : Env) (home u : Path) (name : String) (s : State)
    (c : List Char)
    (hh : e.home = some home) (hu : e.usrHome = some u)
    (hfile : resolve s.fs (rcFileOf e u) = .ok (.file c))
    (hopen : e.faults.openRead s.fs (rcFileOf e u) = none)
    (hread : e.faults.read s.fs (rcFileOf e u) = none)
    (hmark : scanFor functionSignature (rawLines [] c) = .found)
    (hname : stat e.faults s.fs (filepathJoin (home ++ [".vengo"]) name) = .err .ENOENT) :
    activateEnv e name s =
      .ret () ⟨s.fs, s.trace ++ [.call (.activateEnv name), .out "⚠️ Environment does not exist.\n"]⟩ := by
  have h1 := isShellFunctionAdded_found e.faults (rcFileOf e u) functionSignature c
    (emit (.call (.activateEnv name)) s) hfile hopen hread hmark
  have h3 := checkIfEnvExists_eq e home name (emit (.call (.activateEnv name)) s) hh
  have hfs : (emit (.call (.activateEnv name)) s).fs = s.fs := rfl
  rw [hfs, hname] at h3
  unfold activateEnv
  simp only [hu, h1, h3, isNotExist]
  simp [println, print, emit]

/-- C6, as stated, fails.  The invocation `activate zz` for an environment `zz`
that does not exist first runs the two ensure steps of `main`, and when the
profile file has no shell function yet, `addShellFunction` appends it: the
profile file is not the same afterwards.  And for the name `notes.txt/x`,
which does not exist under the registry root, `os.Stat` fails with `ENOTDIR`,
not with not-exist, so nothing is reported although the root exists and the
profile has the marker. -/
theorem activate_invocation_writes_profile :
    (checkIfEnvExists (sampleEnv "") "zz" sampleState = .ret false sampleState ∧
      lookup sampleState.fs ["home", "u", ".bashrc"] = some (.file "# profile\n".data) ∧
      lookup (main (sampleEnv "") ["vengo", "activate", "zz"] sampleState).state.fs
        ["home", "u", ".bashrc"] = some (.file ("# profile\n".data ++ shellFunction)) ∧
      (main (sampleEnv "") ["vengo", "activate", "zz"] sampleState).state.fs ≠ sampleState.fs) ∧
    (resolve installedState.fs ["home", "u", ".vengo", "notes.txt", "x"] = .err .ENOTDIR ∧
      lookup installedState.fs ["home", "u", ".vengo", "notes.txt", "x"] = none ∧
      stdout (main (sampleEnv "") ["vengo", "activate", "notes.txt/x"] installedState).state =
        []) := by
  decide

/-- C6, amended: `activateEnv` never changes the filesystem.  For a name on
whose joined path `os.Stat` fails with a not-exist error (so that
`checkIfEnvExists` is false), when `os.Stat` succeeds on the registry root and
the profile file exists, can be read and holds the marker on a line that the
scan reaches, the invocation `activate <name>` leaves the filesystem, the
profile file included, as it was, and its only output is the report that the
environment does not exist. -/
theorem activate_missing_no_effect (e : Env) (home u : Path) (prog name : String) (s : State)
    (k : Kind) (c : List Char)
    (hh : e.home = some home) (hu : e.usrHome = some u)
    (hroot : stat e.faults s.fs (home ++ [".vengo"]) = .ok k)
    (hfile : resolve s.fs (rcFileOf e u) = .ok (.file c))
    (hopen : e.faults.openRead s.fs (rcFileOf e u) = none)
    (hread : e.faults.read s.fs (rcFileOf e u) = none)
    (hmark : scanFor functionSignature (rawLines [] c) = .found)
    (hname : stat e.faults s.fs (filepathJoin (home ++ [".vengo"]) name) = .err .ENOENT) :
    (∀ s0 n, (activateEnv e n s0).state.fs = s0.fs) ∧
    checkIfEnvExists e name s = .ret false s ∧
    main e [prog, "activate", name] s =
      .ret () ⟨s.fs, s.trace ++ [.call .ensureVengoDir, .call .addShellFunction,
        .call (.activateEnv name), .out "⚠️ Environment does not exist.\n"]⟩ ∧
    stdout (main e [prog, "activate", name] s).state =
      stdout s ++ ["⚠️ Environment does not exist.\n"] := by
  have hens := ensureVengoDir_existing e home s k hh hroot
  have hm := main_activate e prog [name] s _ hens
  simp only at hm
  have hadd := addShellFunction_installed e u (emit (.call .ensureVengoDir) s) c hu
    hfile hopen hread hmark
  have hact := activateEnv_missing e home u name
    (emit (.call .addShellFunction) (emit (.call .ensureVengoDir) s)) c hh hu
    hfile hopen hread hmark hname
  have hmain : main e [prog, "activate", name] s =
      .ret () ⟨s.fs, s.trace ++ [.call .ensureVengoDir, .call .addShellFunction,
        .call (.activateEnv name), .out "⚠️ Environment does not exist.\n"]⟩ := by
    rw [hm, hadd, hact]
    simp [emit]
  refine ⟨fun s0 n => activateEnv_fs e n s0, ?_, hmain, ?_⟩
  · rw [checkIfEnvExists_eq e home name s hh, hname]
    rfl
  · rw [hmain]
    simp [stdout, Res.state, List.filterMap_append]

theorem activate_missing_no_effect_witness :
    (∀ s0 n, (activateEnv (sampleEnv "") n s0).state.fs = s0.fs) ∧
    checkIfEnvExists (sampleEnv "") "zz" installedState = .ret false installedState ∧
    main (sampleEnv "") ["vengo", "activate", "zz"] installedState =
      .ret () ⟨installedState.fs, installedState.trace ++
        [.call .ensureVengoDir, .call .addShellFunction,
        .call (.activateEnv "zz"), .out "⚠️ Environment does not exist.\n"]⟩ ∧
    stdout (main (sampleEnv "") ["vengo", "activate", "zz"] installedState).state =
      stdout installedState ++ ["⚠️ Environment does not exist.\n"] :=
  activate_missing_no_effect (sampleEnv "") ["home", "u"] ["home", "u"] "vengo" "zz"
    installedState .dir ("# profile\n".data ++ shellFunction) rfl rfl (by decide) (by decide)
    rfl rfl (by decide) (by decide)

/-! ## Shell integration -/

theorem stringsContains_iff (s sub : List Char) : stringsContains s sub = true ↔ sub <:+: s := by
  induction s with
  | nil =>
    simp [stringsContains, List.isEmpty_iff]
  | cons c s ih =>
    simp only [stringsContains, Bool.or_eq_true, List.isPrefixOf_iff_prefix, ih,
      List.infix_cons_iff]

theorem dropCR_within (l : List Char) : dropCR l <:+: l := by
  unfold dropCR
  split
  · exact (List.dropLast_prefix l).isInfix
  · exact List.infix_refl l

theorem mem_rawLines_within (acc c l : List Char) (h : l ∈ rawLines acc c) :
    l <:+: acc.reverse ++ c := by
  induction c generalizing acc with
  | nil =>
    unfold rawLines at h
    split at h
    · simp at h
    · simp only [List.mem_singleton] at h
      simp [h]
  | cons x rest ih =>
    unfold rawLines at h
    split at h
    · rcases List.mem_cons.mp h with h | h
      · rw [h]
        exact (List.prefix_append _ _).isInfix
      · have := ih [] h
        simp only [List.reverse_nil, List.nil_append] at this
        obtain ⟨a, b, hab⟩ := this
        exact ⟨acc.reverse ++ x :: a, b, by simp [← hab]⟩
    · have := ih (x :: acc) h
      simpa using this

theorem scanFor_notFound (sig : List Char) (ls : List (List Char))
    (h : ∀ l ∈ ls, byteLen l < maxScanTokenSize ∧ stringsContains (dropCR l) sig = false) :
    scanFor sig ls = .notFound := by
  induction ls with
  | nil => rfl
  | cons l rest ih =>
    have hl := h l (List.mem_cons_self _ _)
    have hlen : ¬ maxScanTokenSize ≤ byteLen l := by omega
    simp only [scanFor, hlen, if_false, hl.2, Bool.false_eq_true]
    exact ih (fun x hx => h x (List.mem_cons_of_mem _ hx))

theorem scanFor_rawLines_append (sig acc c r : List Char) (hsig : sig ≠ [])
    (h : ∀ l ∈ rawLines acc c, byteLen l < maxScanTokenSize ∧
      stringsContains (dropCR l) sig = false) :
    scanFor sig (rawLines acc (c ++ '\n' :: r)) = scanFor sig (rawLines [] r) := by
  induction c generalizing acc with
  | nil =>
    have hline : byteLen acc.reverse < maxScanTokenSize ∧
        stringsContains (dropCR acc.reverse) sig = false := by
      cases acc with
      | nil =>
        refine ⟨by decide, ?_⟩
        cases sig with
        | nil => exact absurd rfl hsig
        | cons a t => rfl
      | cons a t => exact h _ (by simp [rawLines])
    have hlen : ¬ maxScanTokenSize ≤ byteLen acc.reverse := by omega
    simp only [List.nil_append, rawLines, if_true, scanFor, hlen, if_false, hline.2,
      Bool.false_eq_true]
  | cons x rest ih =>
    by_cases hx : x = '\n'
    · subst hx
      have h1 : rawLines acc ('\n' :: rest) = acc.reverse :: rawLines [] rest := by
        simp [rawLines]
      rw [h1] at h
      have hl := h _ (List.mem_cons_self _ _)
      have hlen : ¬ maxScanTokenSize ≤ byteLen acc.reverse := by omega
      have h2 : rawLines acc ('\n' :: rest ++ '\n' :: r) =
          acc.reverse :: rawLines [] (rest ++ '\n' :: r) := by
        simp [rawLines]
      rw [h2]
      simp only [scanFor, hlen, if_false, hl.2, Bool.false_eq_true]
      exact ih [] (fun l hl => h l (List.mem_cons_of_mem _ hl))
    · have h1 : rawLines acc (x :: rest) = rawLines (x :: acc) rest := by
        simp [rawLines, hx]
      have h2 : rawLines acc (x :: rest ++ '\n' :: r) = rawLines (x :: acc) (rest ++ '\n' :: r) := by
        simp [rawLines, hx]
      rw [h2]
      rw [h1] at h
      exact ih (x :: acc) h

theorem lines_without_marker (sig c : List Char) (hmark : stringsContains c sig = false)
    (hshort : ∀ l ∈ rawLines [] c, byteLen l < maxScanTokenSize) :
    ∀ l ∈ rawLines [] c, byteLen l < maxScanTokenSize ∧
      stringsContains (dropCR l) sig = false := by
  intro l hl
  refine ⟨hshort l hl, ?_⟩
  cases hc : stringsContains (dropCR l) sig with
  | false => rfl
  | true =>
    have h1 := (stringsContains_iff _ _).mp hc
    have h2 := mem_rawLines_within [] c l hl
    simp only [List.reverse_nil, List.nil_append] at h2
    have h3 := (stringsContains_iff _ _).mpr ((h1.trans (dropCR_within l)).trans h2)
    rw [hmark] at h3
    exact absurd h3 (by simp)

theorem writeAppend_eq_map (fs : FS) (p : Path) (data : List Char) :
    writeAppend fs p data = fs.map (fun e => (e.1, appended p data e.1 e.2)) := by
  unfold writeAppend
  apply List.map_congr_left
  rintro ⟨q, k⟩ _
  by_cases hq : q = p
  · cases k <;> simp [appended, hq]
  · simp [appended, hq]

theorem lookup_writeAppend (fs : FS) (p q : Path) (data : List Char) :
    lookup (writeAppend fs p data) q = (lookup fs q).map (appended p data q) := by
  rw [writeAppend_eq_map]
  induction fs with
  | nil => rfl
  | cons x rest ih =>
    obtain ⟨q1, k1⟩ := x
    simp only [List.map_cons, lookup]
    by_cases hq : q1 = q
    · simp [hq]
    · simp [hq, ih]

theorem statFrom_writeAppend (fs : FS) (p : Path) (data : List Char) (cur : Path) (k : Kind)
    (comps : List String) :
    statFrom (writeAppend fs p data) cur (appended p data cur k) comps =
      match statFrom fs cur k comps with
      | .ok k1 => .ok (appended p data (cur ++ comps) k1)
      | .err e => .err e := by
  induction comps generalizing cur k with
  | nil => simp [statFrom]
  | cons c rest ih =>
    cases k with
    | file content =>
      have : ∃ c1, appended p data cur (Kind.file content) = Kind.file c1 := by
        unfold appended
        split
        · exact ⟨_, rfl⟩
        · exact ⟨_, rfl⟩
      obtain ⟨c1, hc1⟩ := this
      rw [hc1]
      simp [statFrom]
    | dir =>
      have hd : appended p data cur Kind.dir = Kind.dir := by
        unfold appended
        split <;> rfl
      rw [hd]
      simp only [statFrom, lookup_writeAppend]
      cases hl : lookup fs (cur ++ [c]) with
      | none => simp
      | some k1 =>
        simp only [Option.map_some']
        rw [ih]
        simp [List.append_assoc]

theorem resolve_writeAppend (fs : FS) (p q : Path) (data : List Char) :
    resolve (writeAppend fs p data) q =
      match resolve fs q with
      | .ok k1 => .ok (appended p data q k1)
      | .err e => .err e := by
  have h := statFrom_writeAppend fs p data [] .dir q
  have hd : appended p data [] Kind.dir = Kind.dir := by
    unfold appended
    split <;> rfl
  rw [hd] at h
  simpa [resolve] using h

theorem addShellFunction_fresh (e : Env) (u : Path) (s : State) (c : List Char)
    (hu : e.usrHome = some u)
    (hfile : resolve s.fs (rcFileOf e u) = .ok (.file c))
    (hopen : e.faults.openRead s.fs (rcFileOf e u) = none)
    (hread : e.faults.read s.fs (rcFileOf e u) = none)
    (happ : e.faults.openAppend s.fs (rcFileOf e u) = none)
    (hwrite : e.faults.write s.fs (rcFileOf e u) shellFunction = none)
    (hmark : stringsContains c functionSignature = false)
    (hshort : ∀ l ∈ rawLines [] c, byteLen l < maxScanTokenSize) :
    addShellFunction e s =
      ⟨writeAppend s.fs (rcFileOf e u) shellFunction,
        s.trace ++ [.call .addShellFunction,
          .out ("✅ Shell function added to " ++ pathStr (rcFileOf e u) ++ "\n"),
          .out ("Please restart your terminal or run 'source " ++ pathStr (rcFileOf e u) ++
            " ' to apply the changes." ++ "\n")]⟩ := by
  have hscan := scanFor_notFound functionSignature _
    (lines_without_marker functionSignature c hmark hshort)
  have hfs : (emit (.call .addShellFunction) s).fs = s.fs := rfl
  unfold addShellFunction
  simp only [hu, isShellFunctionAdded, openRead, readAll, hfs, hopen, hread, hfile, hscan,
    openAppend, happ, hwrite]
  simp [println, print, emit]

theorem addShellFunction_again (e : Env) (u : Path) (s : State) (c : List Char)
    (hu : e.usrHome = some u)
    (hfile : resolve s.fs (rcFileOf e u) = .ok (.file (c ++ shellFunction)))
    (hopen : e.faults.openRead s.fs (rcFileOf e u) = none)
    (hread : e.faults.read s.fs (rcFileOf e u) = none)
    (hmark : stringsContains c functionSignature = false)
    (hshort : ∀ l ∈ rawLines [] c, byteLen l < maxScanTokenSize) :
    addShellFunction e s = ⟨s.fs, s.trace ++ [.call .addShellFunction]⟩ := by
  have hsplit : shellFunction = '\n' :: shellFunction.tail := by decide
  have hscan : scanFor functionSignature (rawLines [] (c ++ shellFunction)) = .found := by
    rw [hsplit, scanFor_rawLines_append functionSignature [] c _ (by decide)
      (lines_without_marker functionSignature c hmark hshort)]
    decide
  exact addShellFunction_installed e u s (c ++ shellFunction) hu hfile hopen hread hscan

theorem shellFunction_head : shellFunction.take 10 = '\n' :: functionSignature := by decide

theorem shellFunction_no_overlap (t : List Char) (hne : t ≠ [])
    (hmark : stringsContains t functionSignature = false) :
    shellFunction.isPrefixOf (t ++ shellFunction) = false := by
  cases h : shellFunction.isPrefixOf (t ++ shellFunction) with
  | false => rfl
  | true =>
    exfalso
    have hp : shellFunction <+: t ++ shellFunction := List.isPrefixOf_iff_prefix.mp h
    have ht : t <+: t ++ shellFunction := List.prefix_append _ _
    have hlen : 10 ≤ shellFunction.length := by decide
    by_cases hn : 10 ≤ t.length
    · have h1 : shellFunction.take 10 <+: t :=
        List.prefix_of_prefix_length_le ((List.take_prefix _ _).trans hp) ht
          (by rw [List.length_take]; omega)
      rw [shellFunction_head] at h1
      obtain ⟨r, hr⟩ := h1
      have h2 : functionSignature <:+: t := ⟨['\n'], r, by simpa using hr⟩
      have h3 := (stringsContains_iff _ _).mpr h2
      rw [hmark] at h3
      exact absurd h3 (by simp)
    · have h1 : t <+: shellFunction :=
        List.prefix_of_prefix_length_le ht hp (by omega)
      have h2 : t = shellFunction.take t.length := List.prefix_iff_eq_take.mp h1
      have hpos : 0 < t.length := List.length_pos.mpr hne
      generalize t.length = n at h2 hn hpos
      subst h2
      have hn9 : n ≤ 9 := by omega
      interval_cases n <;> exact absurd h (by decide)

theorem occurrences_append (c : List Char) (hmark : stringsContains c functionSignature = false) :
    occurrences shellFunction (c ++ shellFunction) = occurrences shellFunction shellFunction := by
  induction c with
  | nil => rfl
  | cons x rest ih =>
    have h1 := shellFunction_no_overlap (x :: rest) (by simp) hmark
    have h2 : stringsContains rest functionSignature = false := by
      unfold stringsContains at hmark
      simp only [Bool.or_eq_false_iff] at hmark
      exact hmark.2
    rw [List.cons_append] at h1 ⊢
    simp only [occurrences, h1, Bool.false_eq_true, if_false, Nat.zero_add]
    exact ih h2

theorem occurrences_shellFunction : occurrences shellFunction shellFunction = 1 := by decide

/-- C2, as stated, fails: a profile that mentions the marker in a comment does
not contain the function block, yet `addShellFunction` finds the marker and
appends nothing; after two runs the file is as it was, with no copy of the
block. -/
theorem addShellFunction_marker_only :
    lookup commentState.fs ["home", "u", ".bashrc"] = some (.file "# vengo() \x7b\n".data) ∧
    stringsContains "# vengo() \x7b\n".data shellFunction = false ∧
    addShellFunction (sampleEnv "") commentState =
      ⟨commentState.fs, [.call .addShellFunction]⟩ ∧
    (addShellFunction (sampleEnv "") (addShellFunction (sampleEnv "") commentState)).fs =
      commentState.fs ∧
    occurrences shellFunction "# vengo() \x7b\n".data = 0 := by
  decide

/-- C2, amended: for an existing profile file that is readable and writable
(opening it, reading it, opening it for append and writing the block do not
fail), whose content does not contain the marker `vengo() {` and has no line
of `bufio.MaxScanTokenSize` bytes or more, the first run of `addShellFunction`
appends the function block verbatim to the end of the content and changes
nothing else, the second run leaves the filesystem unchanged, and the file
then holds exactly one copy of the block. -/
theorem addShellFunction_twice (e : Env) (u : Path) (s : State) (c : List Char)
    (hu : e.usrHome = some u)
    (hfile : resolve s.fs (rcFileOf e u) = .ok (.file c))
    (hreadable : e.faults.openRead s.fs (rcFileOf e u) = none ∧
      e.faults.read s.fs (rcFileOf e u) = none)
    (hwritable : e.faults.openAppend s.fs (rcFileOf e u) = none ∧
      e.faults.write s.fs (rcFileOf e u) shellFunction = none)
    (hreadable1 : e.faults.openRead (writeAppend s.fs (rcFileOf e u) shellFunction)
        (rcFileOf e u) = none ∧
      e.faults.read (writeAppend s.fs (rcFileOf e u) shellFunction) (rcFileOf e u) = none)
    (hmark : stringsContains c functionSignature = false)
    (hshort : ∀ l ∈ rawLines [] c, byteLen l < maxScanTokenSize) :
    let rc := rcFileOf e u
    let s1 := addShellFunction e s
    let s2 := addShellFunction e s1
    resolve s1.fs rc = .ok (.file (c ++ shellFunction)) ∧
    (∀ q, q ≠ rc → resolve s1.fs q = resolve s.fs q) ∧
    s2.fs = s1.fs ∧
    resolve s2.fs rc = .ok (.file (c ++ shellFunction)) ∧
    occurrences shellFunction (c ++ shellFunction) = 1 := by
  intro rc s1 s2
  have h1 := addShellFunction_fresh e u s c hu hfile hreadable.1 hreadable.2 hwritable.1
    hwritable.2 hmark hshort
  have hs1 : s1.fs = writeAppend s.fs rc shellFunction := by
    simp only [s1, h1, rc]
  have hstat1 : resolve s1.fs rc = .ok (.file (c ++ shellFunction)) := by
    rw [hs1, resolve_writeAppend, hfile]
    simp [appended]
  have h2 := addShellFunction_again e u s1 c hu hstat1 (by rw [hs1]; exact hreadable1.1)
    (by rw [hs1]; exact hreadable1.2) hmark hshort
  have hs2 : s2.fs = s1.fs := by
    simp only [s2, h2]
  refine ⟨hstat1, ?_, hs2, by rw [hs2]; exact hstat1, ?_⟩
  · intro q hq
    rw [hs1, resolve_writeAppend]
    cases resolve s.fs q with
    | ok k => simp [appended, hq]
    | err err => rfl
  · rw [occurrences_append c hmark, occurrences_shellFunction]

theorem addShellFunction_twice_witness :
    let rc := rcFileOf (sampleEnv "") ["home", "u"]
    let s1 := addShellFunction (sampleEnv "") sampleState
    let s2 := addShellFunction (sampleEnv "") s1
    resolve s1.fs rc = .ok (.file ("# profile\n".data ++ shellFunction)) ∧
    (∀ q, q ≠ rc → resolve s1.fs q = resolve sampleState.fs q) ∧
    s2.fs = s1.fs ∧
    resolve s2.fs rc = .ok (.file ("# profile\n".data ++ shellFunction)) ∧
    occurrences shellFunction ("# profile\n".data ++ shellFunction) = 1 :=
  addShellFunction_twice (sampleEnv "") ["home", "u"] sampleState "# profile\n".data rfl
    (by decide) ⟨rfl, rfl⟩ ⟨rfl, rfl⟩ ⟨rfl, rfl⟩ (by decide) (by decide)

theorem addShellFunction_readOnly :
    addShellFunction { sampleEnv "" with faults := readOnlyProfileFaults } sampleState =
      ⟨sampleState.fs, [.call .addShellFunction,
        .out "❌ Error opening file for writing: open /home/u/.bashrc: permission denied\n"]⟩ := by
  decide

/-! ## Failing system calls -/

theorem addShellFunction_write_fails :
    addShellFunction { sampleEnv "" with faults := brokenFaults } sampleState =
      ⟨sampleFS ("# profile\n" ++ String.mk (shellFunction.take 5)) sampleRegistry,
        [.call .addShellFunction,
        .out "❌ Error reading file: read /home/u/.bashrc: invalid argument\n",
        .out "❌ Error writing to file: write /home/u/.bashrc: no space left on device\n"]⟩ := by
  decide

theorem isShellFunctionAdded_read_fails :
    isShellFunctionAdded brokenFaults ["home", "u", ".bashrc"] functionSignature installedState =
      (false, ⟨installedState.fs,
        [.out "❌ Error reading file: read /home/u/.bashrc: invalid argument\n"]⟩) := by
  decide

theorem listEnvs_unreadable :
    listEnvs { sampleEnv "" with faults := brokenFaults } sampleState =
      .ret () ⟨sampleState.fs, [.call .listEnvs,
        .out "❌ Error reading environments: open /home/u/.vengo: permission denied\n"]⟩ := by
  decide

theorem ensureVengoDir_mkdir_fails :
    ensureVengoDir { sampleEnv "" with faults := brokenFaults } noRootState =
      .exit 1 ⟨noRootState.fs, [.call .ensureVengoDir,
        .out "❌ Failed to create vengo directory: mkdir /home/u/.vengo: permission denied\n"]⟩ := by
  decide

end Vengo
